import Mathlib

/-!
Shallow embedding of the GPay statement parser (`src/pdf_parser.py`) of the
`spending_analyzer` repository, together with theorems settling the frozen
claims about its natural-language specification.

Modelling conventions:
* Python strings are modelled as `List Char` (`Str`); indices are code points,
  which coincides with Python's `str` indexing (the rupee sign `₹` is a single
  code point).
* Python `float` amounts are modelled as exact rationals `ℚ`.  All amounts in
  the program arise from decimal numerals with at most two fractional digits,
  which are exactly representable; claims about such decimal magnitudes are
  settled over `ℚ`.
* `datetime.now()` is modelled by an explicit `now : Date` parameter threaded
  through the functions that can reach the fallback of `_parse_date`.
* Each regular expression of the source is hand-compiled into a matcher in
  continuation-passing style; ordered choice with the continuation inside each
  alternative gives exactly the backtracking preference order of Python's
  `re` module.  `re.search` tries successive start positions, `re.match`
  anchors at the start, and `re.finditer` yields non-overlapping matches.
-/

namespace SpendingAnalyzer

/-- Python strings as lists of code points. -/
abbrev Str := List Char

/-- Whitespace test matching Python's `str.strip` / `\s` (ASCII subset that
can occur in the extracted text). -/
def isSpaceC (c : Char) : Bool :=
  c = ' ' || c = '\t' || c = '\n' || c = '\r' || c = '\x0b' || c = '\x0c'

/-- Decimal digit test (`\d` on the ASCII digits occurring in statements). -/
def isDigitC (c : Char) : Bool := '0' ≤ c && c ≤ '9'

/-- ASCII letter test (`[A-Za-z]`). -/
def isAlphaC (c : Char) : Bool := ('A' ≤ c && c ≤ 'Z') || ('a' ≤ c && c ≤ 'z')

/-- Word character test (`\w` restricted to ASCII, as in the statements). -/
def isWordC (c : Char) : Bool := isAlphaC c || isDigitC c || c = '_'

/-- Numeric value of a digit character. -/
def digitVal (c : Char) : ℕ := c.toNat - 48

/-- Lower-casing of one character (ASCII, as `str.lower` acts on the
characters occurring here; `₹` and digits are unaffected). -/
def lowerC (c : Char) : Char :=
  if 'A' ≤ c && c ≤ 'Z' then Char.ofNat (c.toNat + 32) else c

/-- Python `str.lower`. -/
def toLowerStr (s : Str) : Str := s.map lowerC

/-- Python `str.strip()` (strip whitespace from both ends). -/
def stripWs (s : Str) : Str :=
  (s.dropWhile (fun c => isSpaceC c)).reverse.dropWhile (fun c => isSpaceC c)
    |>.reverse

/-- Python `str.strip(chars)` for an explicit character set. -/
def stripChars (cs : List Char) (s : Str) : Str :=
  (s.dropWhile (fun c => cs.contains c)).reverse.dropWhile
    (fun c => cs.contains c) |>.reverse

/-- Python `sub in hay` substring containment. -/
def containsSub (needle hay : Str) : Bool :=
  match hay with
  | [] => decide (needle = [])
  | _ :: t => decide (needle = hay.take needle.length) || containsSub needle t

/-- Python `str.startswith` for a single character. -/
def startsWithChar (c : Char) (s : Str) : Bool :=
  match s with
  | [] => false
  | x :: _ => x = c

/-- Python `str.replace(old, new, 1)` with `new = ""`: delete the first
occurrence of `old` (a no-op when `old` does not occur; `old` is always
nonempty at the call sites). -/
def replaceFirst (s old : Str) : Str :=
  match s with
  | [] => []
  | x :: t =>
    if old ≠ [] ∧ old = s.take old.length then s.drop old.length
    else x :: replaceFirst t old

/-- Python `str.replace(old, "")`: delete every occurrence of `old` (used
with a single-character `old`). -/
def removeAllChar (c : Char) (s : Str) : Str := s.filter (fun x => x ≠ c)

/-- Python `str.split('\n')`. -/
def splitLines (s : Str) : List Str :=
  match s with
  | [] => [[]]
  | '\n' :: t => [] :: splitLines t
  | x :: t =>
    match splitLines t with
    | [] => [[x]]
    | l :: ls => (x :: l) :: ls

/-- Python `' '.join(parts)`. -/
def joinSpace (parts : List Str) : Str :=
  match parts with
  | [] => []
  | [p] => p
  | p :: ps => p ++ ' ' :: joinSpace ps

/-- Python `s.replace(',', '')` (strip thousands separators). -/
def stripCommasStr (s : Str) : Str := removeAllChar ',' s

/-- Python `re.sub(r'\s+', ' ', s)`: collapse every whitespace run into a
single space. -/
def collapseWs (s : Str) : Str :=
  match s with
  | [] => []
  | [x] => if isSpaceC x then [' '] else [x]
  | x :: y :: t =>
    if isSpaceC x then
      if isSpaceC y then collapseWs (y :: t)
      else ' ' :: y :: collapseWs t
    else x :: collapseWs (y :: t)

/-- Numeric value of a list of decimal digit characters (most significant
first), as computed by Python's `int`/`float` on a digit string. -/
def digitsToNat (s : Str) : ℕ := s.foldl (fun acc c => 10 * acc + digitVal c) 0

/-- Unsigned part of Python `float` on the cleaned amount strings produced
by the parser: decimal digits with at most one point.  Returns `none` when
the string is not such a numeral (mirroring the `ValueError` branch). -/
def parseFloatCore (s1 : Str) : Option ℚ :=
  let intPart := s1.takeWhile (fun c => isDigitC c)
  let rest := s1.dropWhile (fun c => isDigitC c)
  match rest with
  | [] => if intPart = [] then none else some ((digitsToNat intPart : ℚ))
  | '.' :: frac =>
    if frac.all (fun c => isDigitC c) ∧ (intPart ≠ [] ∨ frac ≠ []) then
      some ((digitsToNat intPart : ℚ) +
        (digitsToNat frac : ℚ) / (10 : ℚ) ^ frac.length)
    else none
  | _ => none

/-- Python `float` on the cleaned amount strings produced by the parser:
an optional leading minus, then decimal digits with at most one point. -/
def parseFloatQ (s : Str) : Option ℚ :=
  match s with
  | '-' :: r => (parseFloatCore r).map (fun v => -v)
  | _ => parseFloatCore s

/-- Python `abs` on the modelled float values. -/
def qAbs (v : ℚ) : ℚ := if v < 0 then -v else v

/-! Continuation-passing matchers.  A pattern piece takes a continuation on
the remaining input; ordered choice `<|>` with the continuation inside each
alternative reproduces the backtracking preference order of Python `re`. -/

/-- A pattern piece in continuation-passing style. -/
abbrev Pat (R : Type) := (Str → Option R) → Str → Option R

/-- Match one literal character. -/
def pChar {R : Type} (c : Char) : Pat R := fun k s =>
  match s with
  | x :: xs => if x = c then k xs else none
  | [] => none

/-- Match one character of a class. -/
def pCls {R : Type} (p : Char → Bool) : Pat R := fun k s =>
  match s with
  | x :: xs => if p x then k xs else none
  | [] => none

/-- Greedy option `X?`: prefer matching `X`. -/
def pOpt {R : Type} (x : Pat R) : Pat R := fun k s => x k s <|> k s

/-- Greedy star over a character class (`p*`), with backtracking: prefer the
longest run, give back characters if the continuation fails. -/
def pRunCls {R : Type} (p : Char → Bool) : Pat R := fun k s =>
  match s with
  | x :: xs => if p x then (pRunCls p k xs <|> k (x :: xs)) else k (x :: xs)
  | [] => k []

/-- Greedy plus over a character class (`p+`). -/
def pPlusCls {R : Type} (p : Char → Bool) : Pat R := fun k =>
  pCls p (pRunCls p k)

/-- Greedy counted repetition of a character class (`p{lo,hi}`). -/
def pCntCls {R : Type} (p : Char → Bool) : ℕ → ℕ → Pat R
  | lo, 0 => fun k s => if lo = 0 then k s else none
  | lo, hi + 1 => fun k s =>
    (match s with
     | x :: xs => if p x then pCntCls p (lo - 1) hi k xs else none
     | [] => none) <|>
    (if lo = 0 then k s else none)

/-- Greedy star over a multi-character body, with fuel (every body at the
call sites consumes at least one character, so fuel `|s| + 1` is exact). -/
def pStar {R : Type} (body : Pat R) : ℕ → Pat R
  | 0 => fun k s => k s
  | fuel + 1 => fun k s => body (fun s2 => pStar body fuel k s2) s <|> k s

/-- Case-insensitive literal (for patterns compiled with `re.IGNORECASE`);
the stored literal is compared lower-cased. -/
def pLitCI {R : Type} (lit : Str) : Pat R := fun k s =>
  if lit.length ≤ s.length ∧ toLowerStr (s.take lit.length) = toLowerStr lit
  then k (s.drop lit.length) else none

/-- Run a pattern anchored at the start of `s` (Python `re.match`),
returning the matched prefix and the rest. -/
def runPatAt (pat : Pat Str) (s : Str) : Option (Str × Str) :=
  match pat (fun rest => some rest) s with
  | some rest => some (s.take (s.length - rest.length), rest)
  | none => none

/-- Python `re.search`: try successive start positions, first match wins;
returns the start index and the matched substring. -/
def searchPosAux (pat : Pat Str) : ℕ → Str → Option (ℕ × Str)
  | i, [] =>
    match runPatAt pat [] with
    | some (m, _) => some (i, m)
    | none => none
  | i, s@(_ :: t) =>
    match runPatAt pat s with
    | some (m, _) => some (i, m)
    | none => searchPosAux pat (i + 1) t

/-- Python `re.search` (position and matched text). -/
def searchPos (pat : Pat Str) (s : Str) : Option (ℕ × Str) :=
  searchPosAux pat 0 s

/-- Python `re.search` keeping only `group(0)`. -/
def searchStr (pat : Pat Str) (s : Str) : Option Str :=
  (searchPos pat s).map (fun p => p.2)

/-- Python `re.finditer`: non-overlapping matches, scanning left to right. -/
def finditerAux (pat : Pat Str) : ℕ → ℕ → Str → List (ℕ × Str)
  | 0, _, _ => []
  | fuel + 1, i, s =>
    match searchPos pat s with
    | none => []
    | some (j, m) =>
      (i + j, m) ::
        finditerAux pat fuel (i + j + m.length) (s.drop (j + m.length))

/-- Python `re.finditer` with fuel `|s| + 1` (every match is nonempty). -/
def finditer (pat : Pat Str) (s : Str) : List (ℕ × Str) :=
  finditerAux pat (s.length + 1) 0 s

/-- Python `re.sub(pattern, '', s)`: delete every (leftmost, non-overlapping)
match of the pattern. -/
def subAllAux (pat : Pat Str) : ℕ → Str → Str
  | 0, s => s
  | fuel + 1, s =>
    match searchPos pat s with
    | none => s
    | some (j, m) => s.take j ++ subAllAux pat fuel (s.drop (j + m.length))

/-- Python `re.sub(pattern, '', s)` with fuel `|s| + 1`. -/
def subAll (pat : Pat Str) (s : Str) : Str := subAllAux pat (s.length + 1) s

/-! Regular expressions of `pdf_parser.py`, hand-compiled. -/

/-- Character class `[₹Rs$]` of the amount patterns (a class of the four
characters `₹`, `R`, `s`, `$`). -/
def isCurrSym (c : Char) : Bool := c = '₹' || c = 'R' || c = 's' || c = '$'

/-- Character class dash-or-slash of the date patterns. -/
def isDashSlash (c : Char) : Bool := c = '-' || c = '/'

/-- Fragment `(?:[,]\d{2,3})` of the grouped-decimal amount patterns. -/
def commaGroupPat {R : Type} : Pat R := fun k =>
  pChar ',' (pCntCls isDigitC 2 3 k)

/-- Fragment `(?:[.]\d{1,2})` of the amount patterns. -/
def decPartPat {R : Type} : Pat R := fun k =>
  pChar '.' (pCntCls isDigitC 1 2 k)

/-- Core numeral `\d{1,3}(?:[,]\d{2,3})*(?:[.]\d{1,2})?` shared by the
amount patterns. -/
def numeralCore {R : Type} : Pat R := fun k s =>
  pCntCls isDigitC 1 3
    (fun s2 => pStar commaGroupPat (s2.length + 1) (pOpt decPartPat k) s2) s

/-- Table amount pattern 0:
`[₹Rs$]?\s*-?\d{1,3}(?:[,]\d{2,3})*(?:[.]\d{1,2})?`. -/
def amtPat0 {R : Type} : Pat R := fun k =>
  pOpt (pCls isCurrSym) (pRunCls isSpaceC (pOpt (pChar '-') (numeralCore k)))

/-- Table amount pattern 1:
`[₹Rs$]\s*\d{1,3}(?:[,]\d{2,3})*(?:[.]\d{1,2})?`. -/
def amtPat1 {R : Type} : Pat R := fun k =>
  pCls isCurrSym (pRunCls isSpaceC (numeralCore k))

/-- Table amount pattern 2:
`\(?\d{1,3}(?:[,]\d{2,3})*(?:[.]\d{1,2})?\)?`. -/
def amtPat2 {R : Type} : Pat R := fun k =>
  pOpt (pChar '(') (numeralCore (pOpt (pChar ')') k))

/-- Table amount pattern 3: `-?\d{1,3}(?:[,]\d{2,3})*(?:[.]\d{1,2})?`. -/
def amtPat3 {R : Type} : Pat R := fun k =>
  pOpt (pChar '-') (numeralCore k)

/-- Table amount pattern 4: `[₹Rs$]?\s*-?\d+[.,]\d{2}`. -/
def amtPat4 {R : Type} : Pat R := fun k =>
  pOpt (pCls isCurrSym) (pRunCls isSpaceC (pOpt (pChar '-')
    (pPlusCls isDigitC (pCls (fun c => c = '.' || c = ',')
      (pCntCls isDigitC 2 2 k)))))

/-- Table amount pattern 5: `[₹Rs$]?\s*-?\d+`. -/
def amtPat5 {R : Type} : Pat R := fun k =>
  pOpt (pCls isCurrSym) (pRunCls isSpaceC (pOpt (pChar '-')
    (pPlusCls isDigitC k)))

/-- The ordered list of table amount patterns (order matters in the code). -/
def amountPatterns : List (Pat Str) :=
  [amtPat0, amtPat1, amtPat2, amtPat3, amtPat4, amtPat5]

/-- Table date pattern digits 1-2, dash or slash, digits 1-2, dash or slash, digits 2-4 (all in one capture group). -/
def datePat0 {R : Type} : Pat R := fun k =>
  pCntCls isDigitC 1 2 (pCls isDashSlash (pCntCls isDigitC 1 2
    (pCls isDashSlash (pCntCls isDigitC 2 4 k))))

/-- Table date pattern `(\d{1,2}\s+\w{3}\s+\d{4})`. -/
def datePat1 {R : Type} : Pat R := fun k =>
  pCntCls isDigitC 1 2 (pPlusCls isSpaceC (pCntCls isWordC 3 3
    (pPlusCls isSpaceC (pCntCls isDigitC 4 4 k))))

/-- Table date pattern `(\d{1,2}\s+\w+\s+\d{4})`. -/
def datePat2 {R : Type} : Pat R := fun k =>
  pCntCls isDigitC 1 2 (pPlusCls isSpaceC (pPlusCls isWordC
    (pPlusCls isSpaceC (pCntCls isDigitC 4 4 k))))

/-- Table date pattern digits 4, dash or slash, digits 1-2, dash or slash, digits 1-2 (all in one capture group). -/
def datePat3 {R : Type} : Pat R := fun k =>
  pCntCls isDigitC 4 4 (pCls isDashSlash (pCntCls isDigitC 1 2
    (pCls isDashSlash (pCntCls isDigitC 1 2 k))))

/-- The ordered list of table date patterns. -/
def tableDatePatterns : List (Pat Str) :=
  [datePat0, datePat1, datePat2, datePat3]

/-- Text-path date pattern `(\d{1,2}[A-Za-z]{3},\d{4})` (the GPay compact
date, e.g. `01Oct,2025`). -/
def gpayDatePat {R : Type} : Pat R := fun k =>
  pCntCls isDigitC 1 2 (pCntCls isAlphaC 3 3
    (pChar ',' (pCntCls isDigitC 4 4 k)))

/-- Fragment `(AM|PM)` of the clock-time pattern (case-insensitive). -/
def pAmPm {R : Type} : Pat R := fun k s =>
  match s with
  | a :: m :: rest =>
    if (lowerC a = 'a' ∨ lowerC a = 'p') ∧ lowerC m = 'm' then k rest
    else none
  | _ => none

/-- Clock-time pattern `\d{1,2}:\d{2}\s*(AM|PM)` (case-insensitive). -/
def timePat {R : Type} : Pat R := fun k =>
  pCntCls isDigitC 1 2 (pChar ':' (pCntCls isDigitC 2 2
    (pRunCls isSpaceC (pAmPm k))))

/-- Identifier pattern `UPITransactionID:\s*\d+` (case-insensitive). -/
def upiPat {R : Type} : Pat R := fun k =>
  pLitCI "UPITransactionID:".data (pRunCls isSpaceC (pPlusCls isDigitC k))

/-- Bank-info pattern `Paidby[A-Za-z]+\d+` (case-insensitive). -/
def paidbyPat {R : Type} : Pat R := fun k =>
  pLitCI "Paidby".data (pPlusCls isAlphaC (pPlusCls isDigitC k))

/-! Calendar dates and the embedding of `_parse_date`. -/

/-- A calendar date, as carried by the `datetime` values the parser builds
(`datetime(year, month, day)`; the parser never sets a time component except
through the `datetime.now()` sentinel, which is modelled by the explicit
`now` parameter). -/
structure Date where
  year : ℕ
  month : ℕ
  day : ℕ
deriving DecidableEq, Repr

/-- Gregorian leap-year rule used by `datetime`. -/
def isLeap (y : ℕ) : Bool := y % 4 = 0 && (y % 100 ≠ 0 || y % 400 = 0)

/-- Days in a month, as validated by the `datetime` constructor. -/
def daysInMonth (y m : ℕ) : ℕ :=
  if m = 2 then (if isLeap y then 29 else 28)
  else if m = 4 ∨ m = 6 ∨ m = 9 ∨ m = 11 then 30
  else 31

/-- Python `datetime(year, month, day)`: `none` models the `ValueError`
raised on an invalid date (caught by the surrounding `try`/`except`). -/
def mkDatetime (y m d : ℕ) : Option Date :=
  if 1 ≤ y ∧ y ≤ 9999 ∧ 1 ≤ m ∧ m ≤ 12 ∧ 1 ≤ d ∧ d ≤ daysInMonth y m then
    some ⟨y, m, d⟩
  else none

/-! Tokens of the `strptime` format strings used in `_parse_date`, and their
matchers.  Each matcher reproduces the regular expression Python's
`_strptime` compiles for the directive, including its alternation order. -/

/-- A `strptime` directive or literal. -/
inductive FTok where
  | D : FTok
  | M : FTok
  | Y4 : FTok
  | Y2 : FTok
  | Bmon : FTok
  | BmonF : FTok
  | lit : Char → FTok
  | ws : FTok
deriving Repr

/-- Directive `%d`, compiled by Python to
`3[0-1]|[1-2]\d|0[1-9]|[1-9]| [1-9]` (alternatives tried in this order). -/
def matchD {R : Type} (k : ℕ → Str → Option R) (s : Str) : Option R :=
  (match s with
   | '3' :: c :: r =>
     if c = '0' ∨ c = '1' then k (30 + digitVal c) r else none
   | _ => none) <|>
  (match s with
   | a :: c :: r =>
     if (a = '1' ∨ a = '2') ∧ isDigitC c then
       k (10 * digitVal a + digitVal c) r
     else none
   | _ => none) <|>
  (match s with
   | '0' :: c :: r => if isDigitC c ∧ c ≠ '0' then k (digitVal c) r else none
   | _ => none) <|>
  (match s with
   | a :: r => if isDigitC a ∧ a ≠ '0' then k (digitVal a) r else none
   | _ => none) <|>
  (match s with
   | ' ' :: a :: r => if isDigitC a ∧ a ≠ '0' then k (digitVal a) r else none
   | _ => none)

/-- Directive `%m`, compiled by Python to `1[0-2]|0[1-9]|[1-9]`. -/
def matchM {R : Type} (k : ℕ → Str → Option R) (s : Str) : Option R :=
  (match s with
   | '1' :: c :: r =>
     if c = '0' ∨ c = '1' ∨ c = '2' then k (10 + digitVal c) r else none
   | _ => none) <|>
  (match s with
   | '0' :: c :: r => if isDigitC c ∧ c ≠ '0' then k (digitVal c) r else none
   | _ => none) <|>
  (match s with
   | a :: r => if isDigitC a ∧ a ≠ '0' then k (digitVal a) r else none
   | _ => none)

/-- Directive `%Y` (exactly four digits). -/
def matchY4 {R : Type} (k : ℕ → Str → Option R) (s : Str) : Option R :=
  match s with
  | a :: b :: c :: d :: r =>
    if isDigitC a ∧ isDigitC b ∧ isDigitC c ∧ isDigitC d then
      k (digitsToNat [a, b, c, d]) r
    else none
  | _ => none

/-- Directive `%y` (exactly two digits; Python maps 00-68 to 2000-2068 and
69-99 to 1969-1999). -/
def matchY2 {R : Type} (k : ℕ → Str → Option R) (s : Str) : Option R :=
  match s with
  | a :: b :: r =>
    if isDigitC a ∧ isDigitC b then
      let v := digitsToNat [a, b]
      k (if v ≤ 68 then 2000 + v else 1900 + v) r
    else none
  | _ => none

/-- Month abbreviations for `%b` (compared case-insensitively; no
abbreviation is a prefix of another, so alternation order is immaterial). -/
def monthAbbrevs : List (ℕ × Str) :=
  [(1, "jan".data), (2, "feb".data), (3, "mar".data), (4, "apr".data),
   (5, "may".data), (6, "jun".data), (7, "jul".data), (8, "aug".data),
   (9, "sep".data), (10, "oct".data), (11, "nov".data), (12, "dec".data)]

/-- Full month names for `%B` (compared case-insensitively; no name is a
prefix of another, so alternation order is immaterial). -/
def monthFulls : List (ℕ × Str) :=
  [(1, "january".data), (2, "february".data), (3, "march".data),
   (4, "april".data), (5, "may".data), (6, "june".data), (7, "july".data),
   (8, "august".data), (9, "september".data), (10, "october".data),
   (11, "november".data), (12, "december".data)]

/-- Case-insensitive prefix test against a stored lower-case literal. -/
def prefixCI (lit s : Str) : Bool :=
  decide (lit.length ≤ s.length) &&
    decide (toLowerStr (s.take lit.length) = lit)

/-- Directive matcher over a month-name table (`%b` / `%B`). -/
def matchMonName {R : Type} (tbl : List (ℕ × Str))
    (k : ℕ → Str → Option R) (s : Str) : Option R :=
  tbl.foldr
    (fun pr acc =>
      (if prefixCI pr.2 s then k pr.1 (s.drop pr.2.length) else none) <|> acc)
    none

/-- Partial day/month/year assignment built while matching a format. -/
structure DMY where
  day : Option ℕ := none
  month : Option ℕ := none
  year : Option ℕ := none
deriving Repr

/-- Run a compiled format (list of tokens) against the input, in Python's
preference order, with an always-succeeding final continuation: this yields
the regex engine's first match, whose end position `strptime` then compares
with the string length. -/
def runFmt : List FTok → DMY → Str → Option (DMY × Str)
  | [], a, s => some (a, s)
  | t :: ts, a, s =>
    match t with
    | .D => matchD (fun d => runFmt ts { a with day := some d }) s
    | .M => matchM (fun m => runFmt ts { a with month := some m }) s
    | .Y4 => matchY4 (fun y => runFmt ts { a with year := some y }) s
    | .Y2 => matchY2 (fun y => runFmt ts { a with year := some y }) s
    | .Bmon => matchMonName monthAbbrevs
        (fun m => runFmt ts { a with month := some m }) s
    | .BmonF => matchMonName monthFulls
        (fun m => runFmt ts { a with month := some m }) s
    | .lit c => pChar c (runFmt ts a) s
    | .ws => pPlusCls isSpaceC (runFmt ts a) s

/-- Python `datetime.strptime(s, fmt)` for the formats of `_parse_date`:
the preferred regex match must consume the entire string ("unconverted data
remains" otherwise), and the assembled date must be constructible. -/
def strptimeFmt (toks : List FTok) (s : Str) : Option Date :=
  match runFmt toks {} s with
  | some (a, []) =>
    match a.day, a.month, a.year with
    | some d, some m, some y => mkDatetime y m d
    | _, _, _ => none
  | _ => none

/-- The `formats` list of `_parse_date`, compiled (in source order). -/
def pyFormats : List (List FTok) :=
  [[.D, .ws, .Bmon, .lit ',', .ws, .Y4],
   [.D, .Bmon, .ws, .Y4],
   [.D, .ws, .Bmon, .ws, .Y4],
   [.D, .lit '-', .M, .lit '-', .Y4],
   [.D, .lit '/', .M, .lit '/', .Y4],
   [.D, .lit '.', .M, .lit '.', .Y4],
   [.D, .lit '-', .M, .lit '-', .Y2],
   [.D, .lit '/', .M, .lit '/', .Y2],
   [.D, .lit '.', .M, .lit '.', .Y2],
   [.Y4, .lit '-', .M, .lit '-', .D],
   [.Y4, .lit '/', .M, .lit '/', .D],
   [.D, .ws, .BmonF, .ws, .Y4],
   [.D, .lit '-', .Bmon, .lit '-', .Y4],
   [.D, .lit '-', .BmonF, .lit '-', .Y4],
   [.Bmon, .ws, .D, .lit ',', .ws, .Y4],
   [.BmonF, .ws, .D, .lit ',', .ws, .Y4],
   [.M, .lit '/', .D, .lit '/', .Y4],
   [.M, .lit '-', .D, .lit '-', .Y4]]

/-- The `for fmt in formats` loop: first format that parses wins. -/
def tryFormats (s : Str) : Option Date :=
  pyFormats.findSome? (fun f => strptimeFmt f s)

/-- Anchored match (Python `re.match`) of the GPay compact pattern
`(\d{1,2})([A-Za-z]{3}),(\d{4})`, returning day value, month letters and
year value of the first (preference-order) match. -/
def gpayMatch (s : Str) : Option (ℕ × Str × ℕ) :=
  match
    (pCntCls isDigitC 1 2 (fun s1 =>
      pCntCls isAlphaC 3 3 (fun s2 =>
        pChar ',' (fun s3 =>
          pCntCls isDigitC 4 4 (fun s4 => some (s1, s2, s3, s4)) s3) s2) s1) s
      : Option (Str × Str × Str × Str)) with
  | some (s1, s2, s3, s4) =>
    some (digitsToNat (s.take (s.length - s1.length)),
      s1.take (s1.length - s2.length),
      digitsToNat (s3.take (s3.length - s4.length)))
  | none => none

/-- The GPay-format branch of `_parse_date`: on a regex match, capitalize
the month letters and look them up (capitalized-key dictionary lookup is
case-insensitive comparison), then construct the date; any failure falls
through to the format list. -/
def gpayParseDate (s : Str) : Option Date :=
  match gpayMatch s with
  | none => none
  | some (d, mon, y) =>
    match monthAbbrevs.find? (fun pr => pr.2 = toLowerStr mon) with
    | some pr => mkDatetime y pr.1 d
    | none => none

/-- Python `re.findall(r'\d+', s)` followed by `int`: the values of the
maximal digit runs, left to right.  The accumulator holds the digits of the
current run in reverse. -/
def digitRunsAux : Str → Str → List ℕ
  | [], cur => if cur = [] then [] else [digitsToNat cur.reverse]
  | c :: t, cur =>
    if isDigitC c then digitRunsAux t (c :: cur)
    else if cur = [] then digitRunsAux t []
    else digitsToNat cur.reverse :: digitRunsAux t []

/-- Values of the maximal digit runs of `s`, left to right. -/
def digitRuns (s : Str) : List ℕ := digitRunsAux s []

/-- The flexible numeric fallback of `_parse_date`: first three integers,
two-digit years shifted by 2000, day-month versus month-day disambiguation.
A `datetime` failure inside the chosen branch is caught by the enclosing
`except` and falls through to the final sentinel (it does not try the other
branch). -/
def flexFallback (s : Str) : Option Date :=
  match digitRuns s with
  | n1 :: n2 :: n3 :: _ =>
    let year := if n3 < 100 then n3 + 2000 else n3
    if 1 ≤ n1 ∧ n1 ≤ 31 ∧ 1 ≤ n2 ∧ n2 ≤ 12 then mkDatetime year n2 n1
    else if 1 ≤ n1 ∧ n1 ≤ 12 ∧ 1 ≤ n2 ∧ n2 ≤ 31 then mkDatetime year n1 n2
    else none
  | _ => none

/-- The three strategies of `_parse_date` in order (GPay compact pattern,
conventional format list, numeric fallback); `none` means every strategy
failed. -/
def parse_date_opt (s0 : Str) : Option Date :=
  let s := stripWs s0
  match gpayParseDate s with
  | some d => some d
  | none =>
    match tryFormats s with
    | some d => some d
    | none => flexFallback s

/-- Full `_parse_date`: when every strategy fails it returns `datetime.now()`
(the `now` parameter) as the last-resort sentinel. -/
def parse_date (now : Date) (s : Str) : Date := (parse_date_opt s).getD now

/-! Transaction records and the row parser `_parse_table_row`. -/

/-- Transaction direction (`'Debit'` / `'Credit'` strings in the source). -/
inductive TType where
  | Debit : TType
  | Credit : TType
deriving DecidableEq, Repr

/-- A materialized transaction record (dict with the four keys in the
source). -/
structure Tx where
  date : Date
  amount : ℚ
  ty : TType
  descr : Str
deriving DecidableEq, Repr

/-- Debit keywords of `type_keywords` in `_parse_table_row` (the dict lists
debit first, so debit keywords are tested first). -/
def debitCellKws : List Str :=
  ["paid".data, "sent".data, "debit".data, "withdrawal".data,
   "deducted".data, "spent".data]

/-- Credit keywords of `type_keywords` in `_parse_table_row`. -/
def creditCellKws : List Str :=
  ["received".data, "credit".data, "deposit".data, "credited".data,
   "added".data, "refund".data]

/-- Date extraction from one (stripped) cell: first date pattern whose
match parses to a year in [2020, 2030] wins; a match with an out-of-range
year falls through to the next pattern.  `_parse_date`'s sentinel makes the
parse total, so the year test is applied to `now` when the matched text is
unparseable. -/
def cellDate (now : Date) (cs : Str) : Option Date :=
  tableDatePatterns.findSome? (fun dp =>
    match searchStr dp cs with
    | none => none
    | some g1 =>
      let d := parse_date now g1
      if 2020 ≤ d.year ∧ d.year ≤ 2030 then some d else none)

/-- Python `re.sub(r'[₹Rs$,\s()]', '', s)` on the matched amount text. -/
def removeCurrencyChars (s : Str) : Str :=
  s.filter (fun c =>
    ¬(c = '₹' ∨ c = 'R' ∨ c = 's' ∨ c = '$' ∨ c = ',' ∨ isSpaceC c ∨
      c = '(' ∨ c = ')'))

/-- One pattern iteration of the amount loop of `_parse_table_row` after a
match `g0`: clean the matched text, update the sticky `is_negative` flag,
parse and bound-check.  Returns the updated flag and the accepted value
(`none` when empty, unparseable, or out of bounds — the loop then simply
continues with the next pattern). -/
def attemptAmount (cs g0 : Str) (neg : Bool) : Bool × Option ℚ :=
  let cleaned := stripWs (removeCurrencyChars g0)
  let negHit := startsWithChar '-' cleaned || startsWithChar '(' cs
  let neg2 := neg || negHit
  let cleaned2 := if negHit then removeAllChar '-' cleaned else cleaned
  (neg2,
    if cleaned2 = [] then none
    else
      match parseFloatQ cleaned2 with
      | none => none
      | some v0 =>
        let v := if neg2 then -v0 else v0
        if 1 / 100 ≤ qAbs v ∧ qAbs v ≤ 10000000 then some v else none)

/-- The `for pattern in amount_patterns` loop of `_parse_table_row` over one
cell.  `cs` is the stripped cell, `test` is `cs` with commas removed, and
the boolean accumulator is the sticky `is_negative` flag. -/
def cellAmountLoop (cs test : Str) : List (Pat Str) → Bool → Option ℚ
  | [], _ => none
  | p :: ps, neg =>
    match searchStr p test with
    | none => cellAmountLoop cs test ps neg
    | some g0 =>
      match attemptAmount cs g0 neg with
      | (_, some v) => some v
      | (neg2, none) => cellAmountLoop cs test ps neg2

/-- Amount extraction from one (stripped) cell of a table row. -/
def cellAmount (cs : Str) : Option ℚ :=
  let low := toLowerStr cs
  let neg0 := startsWithChar '-' cs || startsWithChar '(' cs ||
    containsSub "debit".data low
  cellAmountLoop cs (stripCommasStr cs) amountPatterns neg0

/-- Direction-keyword classification of one (stripped) cell. -/
def cellType (cs : Str) : Option TType :=
  let low := toLowerStr cs
  if debitCellKws.any (fun kw => containsSub kw low) then some TType.Debit
  else if creditCellKws.any (fun kw => containsSub kw low) then
    some TType.Credit
  else none

/-- Header vocabulary used when excluding cells from the description. -/
def rowHeaderKws : List Str :=
  ["date".data, "description".data, "amount".data, "transaction".data,
   "balance".data, "total".data]

/-- Description-phase test: does any table date pattern occur in the cell
(mere presence; no validity check). -/
def isDateLike (cs : Str) : Bool :=
  tableDatePatterns.any (fun dp => (searchStr dp cs).isSome)

/-- Description-phase test: does any amount pattern occur in the
comma-stripped cell (mere presence; no bounds check). -/
def isAmountLike (cs : Str) : Bool :=
  amountPatterns.any (fun ap => (searchStr ap (stripCommasStr cs)).isSome)

/-- Description-phase test: does any direction keyword (either list) occur
in the lower-cased cell. -/
def isTypeKw (cs : Str) : Bool :=
  (debitCellKws ++ creditCellKws).any (fun kw => containsSub kw (toLowerStr cs))

/-- Description-phase test: does any header keyword occur in the cell. -/
def isHeaderKw (cs : Str) : Bool :=
  rowHeaderKws.any (fun kw => containsSub kw (toLowerStr cs))

/-- The partially-filled transaction dict while scanning the row's cells. -/
structure RowState where
  date : Option Date := none
  amount : Option ℚ := none
  ty : Option TType := none
deriving Repr

/-- Processing of one cell inside the `for cell in row_data` loop: each of
the three fields is attempted independently, and only while still unset
(`'date' not in transaction`, etc.). -/
def rowStep (now : Date) (st : RowState) (cell : Str) : RowState :=
  let cs := stripWs cell
  { date := match st.date with
      | some d => some d
      | none => cellDate now cs,
    amount := match st.amount with
      | some a => some a
      | none => cellAmount cs,
    ty := match st.ty with
      | some t => some t
      | none => cellType cs }

/-- Sentinel description of `_parse_table_row`. -/
def unknownDescr : Str := "Unknown Transaction".data

/-- The empty-cell filter `[cell for cell in row_data if cell and
str(cell).strip()]`. -/
def rowFilter (row : List Str) : List Str :=
  row.filter (fun c => c ≠ [] ∧ stripWs c ≠ [])

/-- The `for cell in row_data` loop over the filtered cells. -/
def rowScan (now : Date) (cells : List Str) : RowState :=
  cells.foldl (rowStep now) {}

/-- The description candidates: stripped cells that are not date-like, not
amount-like, not direction keywords, not header vocabulary, and longer than
three characters. -/
def rowDescs (cells : List Str) : List Str :=
  cells.filterMap (fun cell =>
    let cs := stripWs cell
    if ¬ isDateLike cs ∧ ¬ isAmountLike cs ∧ ¬ isTypeKw cs ∧
        ¬ isHeaderKw cs ∧ 3 < cs.length then some cs else none)

/-- Final description: multiple candidates are joined with spaces, a single
candidate is used as is (`max` of a singleton), no candidate falls back to
the sentinel. -/
def rowDescr (cells : List Str) : Str :=
  match rowDescs cells with
  | [] => unknownDescr
  | [d] => d
  | descs => joinSpace descs

/-- Final direction: an unset type defaults on the amount's sign (`Debit`
if negative else `Credit`), or to `Debit` when the amount is also unset. -/
def rowTy (st : RowState) : TType :=
  match st.ty with
  | some t => t
  | none =>
    match st.amount with
    | some a => if a < 0 then TType.Debit else TType.Credit
    | none => TType.Debit

/-- Embedding of `_parse_table_row`: `none` models `return None`. -/
def parse_table_row (now : Date) (row : List Str) : Option Tx :=
  if row.length < 2 then none
  else
    let cells := rowFilter row
    if cells.length < 2 then none
    else
      match (rowScan now cells).date, (rowScan now cells).amount with
      | some d, some a =>
        some ⟨d, a, rowTy (rowScan now cells), rowDescr cells⟩
      | _, _ => none

/-! The text path: `_parse_single_transaction` and
`_parse_text_transactions`. -/

/-- Anchored attempt of the text amount pattern
`₹\s*(\d{1,3}(?:[,]\d{2,3})*(?:[.]\d{1,2})?)` at the start of `s`,
returning the rests at the start of group 1 and at the end of the match. -/
def amtTextAt (s : Str) : Option (Str × Str) :=
  (pChar '₹' (fun s1 =>
    pRunCls isSpaceC (fun s2 =>
      numeralCore (fun s3 => some (s2, s3)) s2) s1) s : Option (Str × Str))

/-- Python `re.search` of the text amount pattern: position, `group(0)` and
`group(1)` of the leftmost match. -/
def searchAmtAux : ℕ → Str → Option (ℕ × Str × Str)
  | _, [] => none
  | i, s@(_ :: t) =>
    match amtTextAt s with
    | some (s2, s3) =>
      some (i, s.take (s.length - s3.length), s2.take (s2.length - s3.length))
    | none => searchAmtAux (i + 1) t

/-- Python `re.search` of the text amount pattern on `s`. -/
def searchAmt (s : Str) : Option (ℕ × Str × Str) := searchAmtAux 0 s

/-- The `debit_keywords` list of `_parse_text_transactions`. -/
def debitKeywords : List Str :=
  ["paidto".data, "selftransferto".data, "paid".data]

/-- The `credit_keywords` list of `_parse_text_transactions`. -/
def creditKeywords : List Str :=
  ["receivedfrom".data, "received".data, "credited".data]

/-- Sentinel description of `_parse_single_transaction`. -/
def fallbackDescr : Str := "Transaction".data

/-- Embedding of `_parse_single_transaction` on one fragment. -/
def parse_single_transaction (now : Date) (t : Str) : Option Tx :=
  let low := toLowerStr t
  match searchPos gpayDatePat t with
  | none => none
  | some (dpos, dstr) =>
    let pd := parse_date now (stripWs dstr)
    if ¬(2020 ≤ pd.year ∧ pd.year ≤ 2030) then none
    else
      match searchAmt t with
      | none => none
      | some (apos, g0, g1) =>
        match parseFloatQ (stripCommasStr g1) with
        | none => none
        | some v =>
          if ¬(1 / 100 ≤ qAbs v ∧ qAbs v ≤ 10000000) then none
          else
            let ty : TType :=
              if debitKeywords.any (fun kw => containsSub kw low) then
                TType.Debit
              else if creditKeywords.any (fun kw => containsSub kw low) then
                TType.Credit
              else TType.Debit
            let d1 := stripWs (replaceFirst t dstr)
            let d2 := stripWs (replaceFirst d1 g0)
            let d3 := stripWs (subAll timePat d2)
            let d4 := stripWs (subAll upiPat d3)
            let d5 := stripWs (subAll paidbyPat d4)
            let d6 := stripWs (collapseWs d5)
            let d7 := stripChars [' ', ',', '-'] d6
            let descr : Str :=
              if 1 < d7.length then d7
              else
                let dateEnd := dpos + dstr.length
                if dateEnd < apos then
                  let mid := stripWs ((t.drop dateEnd).take (apos - dateEnd))
                  let mid2 := stripWs (collapseWs mid)
                  if 1 < mid2.length then mid2 else fallbackDescr
                else fallbackDescr
            some ⟨pd, v, ty, descr⟩

/-- The `skip_headers` list of `_parse_text_transactions`. -/
def skipHeaderSubs : List Str :=
  ["date&time".data, "transactiondetails".data, "amount".data,
   "transaction statement".data, "statementperiod".data,
   "sent received".data, "contact".data, "8081100105".data]

/-- Fragments of a line delimited by the date-pattern occurrences: each
occurrence starts a fragment that extends to the next occurrence or the end
of the line (`line[start_pos:end_pos]`). -/
def fragmentsOf (line : Str) : List (ℕ × Str) → List Str
  | [] => []
  | [(p, _)] => [line.drop p]
  | (p, _) :: (q, m) :: rest =>
    ((line.drop p).take (q - p)) :: fragmentsOf line ((q, m) :: rest)

/-- Embedding of `_parse_text_transactions` on one page's text. -/
def parse_text_transactions (now : Date) (text : Str) : List Tx :=
  (splitLines text).flatMap (fun line =>
    let ls := stripWs line
    if ls = [] ∨ ls.length < 15 then []
    else
      let low := toLowerStr line
      if skipHeaderSubs.any (fun h => containsSub h low) then []
      else if (searchPos gpayDatePat line).isNone then []
      else
        match finditer gpayDatePat line with
        | [] => []
        | ms =>
          (fragmentsOf line ms).filterMap (fun fr =>
            let fs := stripWs fr
            if fs = [] ∨ fs.length < 10 then none
            else parse_single_transaction now fs))

/-! The orchestrator `parse_gpay_pdf` and `_clean_dataframe`, over an
abstract document: a list of pages, each carrying the tables that
`page.extract_tables()` returns (cells already reduced to strings, with
`""` for `None`) and the text that `page.extract_text()` returns (with
`""` for a falsy result). -/

/-- One page of the abstract document. -/
structure Page where
  tables : List (List (List Str))
  text : Str

/-- Header vocabulary of the row-skipping test in `parse_gpay_pdf`. -/
def pageHeaderKws : List Str :=
  ["date".data, "description".data, "amount".data, "transaction".data,
   "debit".data, "credit".data, "balance".data]

/-- Processing of one table row inside `parse_gpay_pdf` (with its
enumeration index): length test, all-cells-short test, header test for the
first three rows, then `_parse_table_row`; a parsed transaction is appended
unconditionally. -/
def processTableRow (now : Date) (acc : List Tx) (idx : ℕ)
    (row : List Str) : List Tx :=
  if row.length < 2 then acc
  else
    let row_data := row.map stripWs
    if ¬ row_data.any (fun c => 2 < c.length) then acc
    else
      let joined := toLowerStr (joinSpace row_data)
      if pageHeaderKws.any (fun h => containsSub h joined) ∧ idx < 3 then acc
      else
        match parse_table_row now row_data with
        | some tx => acc ++ [tx]
        | none => acc

/-- Processing of one table (all rows, with indices). -/
def processTable (now : Date) (acc : List Tx) (tbl : List (List Str)) :
    List Tx :=
  tbl.enum.foldl (fun a pr => processTableRow now a pr.1 pr.2) acc

/-- The duplicate test of `parse_gpay_pdf`: same date, amount difference
below 0.01, equal first 20 description characters. -/
def isDupOf (tx e : Tx) : Bool :=
  tx.date = e.date && decide (qAbs (tx.amount - e.amount) < 1 / 100) &&
    decide (tx.descr.take 20 = e.descr.take 20)

/-- Does `tx` duplicate any already-accepted candidate? -/
def isDup (tx : Tx) (acc : List Tx) : Bool := acc.any (isDupOf tx)

/-- The text-path merge loop: each text candidate is appended only when it
duplicates no already-accepted candidate (the accumulated list grows as
candidates are accepted). -/
def addTextTxns (acc : List Tx) (txs : List Tx) : List Tx :=
  txs.foldl (fun a tx => if isDup tx a then a else a ++ [tx]) acc

/-- Processing of one page: all tables through the row path, then the text
path merged with the duplicate test. -/
def processPage (now : Date) (acc : List Tx) (pg : Page) : List Tx :=
  let acc1 := pg.tables.foldl (processTable now) acc
  if pg.text = [] then acc1
  else addTextTxns acc1 (parse_text_transactions now pg.text)

/-- Pandas `drop_duplicates`: keep the first occurrence of each full
record. -/
def dedupKeepFirstAux : List Tx → List Tx → List Tx
  | [], _ => []
  | t :: ts, seen =>
    if seen.contains t then dedupKeepFirstAux ts seen
    else t :: dedupKeepFirstAux ts (t :: seen)

/-- Pandas `drop_duplicates` over the whole collection. -/
def dedupKeepFirst (l : List Tx) : List Tx := dedupKeepFirstAux l []

/-- Lexicographic order on dates (the order `datetime` comparison gives). -/
def dateLe (a b : Date) : Bool :=
  a.year < b.year || (a.year = b.year &&
    (a.month < b.month || (a.month = b.month && a.day ≤ b.day)))

/-- Insertion step of the date-descending sort.  (Pandas `sort_values`
uses an unstable quicksort, so the relative order of equal dates is not
contractual; any date-descending arrangement is a faithful model.) -/
def insertByDateDesc (t : Tx) : List Tx → List Tx
  | [] => [t]
  | x :: xs =>
    if dateLe x.date t.date then t :: x :: xs else x :: insertByDateDesc t xs

/-- Sort newest-first (`sort_values('date', ascending=False)`). -/
def sortByDateDesc (l : List Tx) : List Tx := l.foldr insertByDateDesc []

/-- Embedding of `_clean_dataframe` on a nonempty collection: all four
columns are present on every record by construction, so the column
defaulting is a no-op; duplicates are dropped and the result is sorted
newest-first. -/
def clean_dataframe (txs : List Tx) : List Tx :=
  sortByDateDesc (dedupKeepFirst txs)

/-- The output collection: column schema plus records. -/
structure Frame where
  columns : List String
  rows : List Tx
deriving DecidableEq, Repr

/-- The expected output schema. -/
def requiredColumns : List String := ["date", "description", "amount", "type"]

/-- Embedding of `parse_gpay_pdf` over the abstract document: the page loop
accumulates candidates; an empty collection yields the empty frame with the
full schema, otherwise the cleaned collection is returned. -/
def parse_gpay_pdf (now : Date) (pages : List Page) : Frame :=
  let txs := pages.foldl (processPage now) []
  if txs = [] then ⟨requiredColumns, []⟩
  else ⟨requiredColumns, clean_dataframe txs⟩

/-! Theorems settling the claims.  Core's `Rat` arithmetic is sealed by
default; it is re-opened for definitional evaluation of the embedded
functions on concrete inputs. -/

attribute [local semireducible] Rat.add Rat.sub Rat.mul Rat.inv

set_option maxRecDepth 10000

/-- A fixed reference value for the `datetime.now()` parameter in closed
evaluations (any value in 2020-2030 behaves identically on these inputs). -/
def now0 : Date := ⟨2025, 10, 12⟩

/-- C1: the specification claims the table row
`["01-10-2025", "Paid to Shiv Kumar", "₹85"]` parses to date 2025-10-01,
amount 85.0, type Debit, description "Paid to Shiv Kumar".  Evaluating the
embedded `_parse_table_row` at exactly this row shows the code instead
returns amount 1.0 (the digit group "01" of the date cell is matched by the
first amount pattern and accepted before the `₹85` cell is reached) and the
sentinel description (the cell "Paid to Shiv Kumar" contains the direction
keyword "paid" and is therefore excluded from the description candidates).
Date and type do agree with the claim. -/
theorem claim_C1_row_example_divergence :
    parse_table_row now0
      ["01-10-2025".data, "Paid to Shiv Kumar".data, "₹85".data] =
      some ⟨⟨2025, 10, 1⟩, 1, TType.Debit, unknownDescr⟩ ∧
    (1 : ℚ) ≠ 85 ∧ unknownDescr ≠ "Paid to Shiv Kumar".data := by
  refine ⟨by decide, by decide, by decide⟩

/-- C5: the packed text line splits into exactly two records: a Debit of
85.0 dated 2025-10-01 whose description is derived from "Shiv Kumar" (the
code keeps the packed token "PaidtoShiv Kumar", which contains
"Shiv Kumar"), and a Credit of 200.0 dated 2025-10-01.  The result does not
depend on the `now` parameter (no fallback is reached). -/
theorem claim_C5_packed_line :
    (∀ now : Date, parse_text_transactions now
      "01Oct,2025 PaidtoShiv Kumar ₹85 08:38AM UPITransactionID:12345 01Oct,2025 ReceivedfromJohn ₹200 09:00AM".data =
      [⟨⟨2025, 10, 1⟩, 85, TType.Debit, "PaidtoShiv Kumar".data⟩,
       ⟨⟨2025, 10, 1⟩, 200, TType.Credit, "ReceivedfromJohn".data⟩]) ∧
    containsSub "Shiv Kumar".data "PaidtoShiv Kumar".data = true :=
  ⟨fun _ => rfl, by decide⟩

/-- C6: whenever every strategy of the Date Normalizer fails (GPay compact
pattern, the conventional format list, and the numeric fallback — i.e.
`parse_date_opt` returns `none`), `_parse_date` returns today's date (the
`now` parameter) instead of raising. -/
theorem claim_C6_now_sentinel (s : Str) (now : Date)
    (h : parse_date_opt s = none) : parse_date now s = now := by
  unfold parse_date
  rw [h]
  rfl

/-- Witness for C6 at a token on which every strategy fails. -/
theorem claim_C6_now_sentinel_witness :
    parse_date_opt "hello world!".data = none ∧
    parse_date ⟨2025, 1, 1⟩ "hello world!".data = ⟨2025, 1, 1⟩ :=
  ⟨by decide, claim_C6_now_sentinel "hello world!".data ⟨2025, 1, 1⟩ (by decide)⟩

/-- C7: when the page loop extracts no candidate at all (empty document or
total extraction failure), the orchestrator returns the empty collection
that still carries the full schema `["date", "description", "amount",
"type"]` — not `none` and not an error (the embedded orchestrator is a
total function into `Frame`). -/
theorem claim_C7_empty_schema (now : Date) (pages : List Page)
    (h : pages.foldl (processPage now) [] = []) :
    parse_gpay_pdf now pages = ⟨requiredColumns, []⟩ := by
  unfold parse_gpay_pdf
  simp [h]

/-- Witness for C7 at the empty document. -/
theorem claim_C7_empty_schema_witness :
    parse_gpay_pdf now0 [] = ⟨requiredColumns, []⟩ ∧
    requiredColumns = ["date", "description", "amount", "type"] :=
  ⟨claim_C7_empty_schema now0 [] (by decide), by decide⟩

/-! Supporting lemmas for the bound, default-type, and first-cell-amount
invariants of the two parsers. -/

/-- Every amount one pattern iteration accepts lies within the plausible
bound (the bound test guards the only accepting exit). -/
theorem attemptAmount_bound (cs g0 : Str) (neg : Bool) (v : ℚ)
    (h : (attemptAmount cs g0 neg).2 = some v) :
    1 / 100 ≤ qAbs v ∧ qAbs v ≤ 10000000 := by
  unfold attemptAmount at h
  dsimp only at h
  split at h
  all_goals try split at h
  all_goals try cases h
  all_goals try split at h
  all_goals try cases h
  all_goals try split at h
  all_goals try split at h
  all_goals cases h <;> assumption

/-- Every amount the pattern loop of `_parse_table_row` accepts lies within
the plausible bound. -/
theorem cellAmountLoop_bound :
    ∀ (ps : List (Pat Str)) (cs test : Str) (neg : Bool) (v : ℚ),
      cellAmountLoop cs test ps neg = some v →
      1 / 100 ≤ qAbs v ∧ qAbs v ≤ 10000000 := by
  intro ps
  induction ps with
  | nil =>
    intro cs test neg v h
    simp [cellAmountLoop] at h
  | cons p ps ih =>
    intro cs test neg v h
    rw [cellAmountLoop] at h
    cases hs : searchStr p test with
    | none =>
      rw [hs] at h
      exact ih cs test neg v h
    | some g0 =>
      rw [hs] at h
      dsimp only at h
      cases ha : attemptAmount cs g0 neg with
      | mk neg2 r =>
        rw [ha] at h
        cases r with
        | some v0 =>
          dsimp only at h
          cases h
          exact attemptAmount_bound cs g0 neg v (by rw [ha])
        | none =>
          dsimp only at h
          exact ih cs test neg2 v h

/-- Every amount `cellAmount` accepts lies within the plausible bound. -/
theorem cellAmount_bound (cs : Str) (v : ℚ) (h : cellAmount cs = some v) :
    1 / 100 ≤ qAbs v ∧ qAbs v ≤ 10000000 := by
  unfold cellAmount at h
  exact cellAmountLoop_bound _ _ _ _ _ h

/-- Once the amount field is set, the cell loop never changes it. -/
theorem foldl_rowStep_amount_persist (now : Date) (a : ℚ) :
    ∀ (cells : List Str) (st : RowState), st.amount = some a →
      (cells.foldl (rowStep now) st).amount = some a := by
  intro cells
  induction cells with
  | nil => intro st h; exact h
  | cons c cells ih =>
    intro st h
    apply ih
    simp [rowStep, h]

/-- The amount field after the cell loop is exactly the first in-bounds
per-cell amount, scanning the filtered cells in row order. -/
theorem foldl_rowStep_amount_scan (now : Date) :
    ∀ (cells : List Str) (st : RowState), st.amount = none →
      (cells.foldl (rowStep now) st).amount =
        cells.findSome? (fun c => cellAmount (stripWs c)) := by
  intro cells
  induction cells with
  | nil => intro st h; simpa [List.findSome?] using h
  | cons c cells ih =>
    intro st h
    rw [List.foldl_cons, List.findSome?_cons]
    cases hc : cellAmount (stripWs c) with
    | none =>
      apply ih
      simp [rowStep, h, hc]
    | some a =>
      apply foldl_rowStep_amount_persist
      simp [rowStep, h, hc]

/-- If no cell carries a direction keyword, the cell loop leaves the type
field unchanged. -/
theorem foldl_rowStep_ty_none (now : Date) :
    ∀ (cells : List Str) (st : RowState),
      (∀ c ∈ cells, cellType (stripWs c) = none) →
      (cells.foldl (rowStep now) st).ty = st.ty := by
  intro cells
  induction cells with
  | nil => intro st _; rfl
  | cons c cells ih =>
    intro st h
    rw [List.foldl_cons, ih _ (fun x hx => h x (List.mem_cons_of_mem _ hx))]
    simp [rowStep, h c (List.mem_cons_self c cells)]
    cases st.ty <;> rfl

/-- Claim-level description of the amount policy (following the claim's
words): the amount is taken from the first cell, in row order, on which the
per-cell amount extraction succeeds with an in-bounds value. -/
def firstCellAmount (cells : List Str) : Option ℚ :=
  cells.findSome? (fun c => cellAmount (stripWs c))

/-- A successful `_parse_table_row` exposes the scan state. -/
theorem parse_table_row_inv (now : Date) (row : List Str) (t : Tx)
    (h : parse_table_row now row = some t) :
    (rowScan now (rowFilter row)).date = some t.date ∧
    (rowScan now (rowFilter row)).amount = some t.amount ∧
    rowTy (rowScan now (rowFilter row)) = t.ty ∧
    rowDescr (rowFilter row) = t.descr := by
  unfold parse_table_row at h
  dsimp only at h
  split at h
  · exact absurd h (by simp)
  · split at h
    · exact absurd h (by simp)
    · split at h
      · rename_i d a hd ha
        cases h
        exact ⟨hd, ha, rfl, rfl⟩
      · exact absurd h (by simp)

/-- C2: no record carrying an out-of-bounds magnitude is ever produced:
every record returned by the Row Parser or by the Line/Segment Parser has
an amount whose magnitude lies in [0.01, 10,000,000] (an out-of-bounds
parse behaves as a non-match: the loops continue with the next pattern or
reject the fragment, and both parsers are total functions — no crash). -/
theorem claim_C2_bounds :
    (∀ (now : Date) (row : List Str) (t : Tx),
      parse_table_row now row = some t →
      1 / 100 ≤ qAbs t.amount ∧ qAbs t.amount ≤ 10000000) ∧
    (∀ (now : Date) (s : Str) (t : Tx),
      parse_single_transaction now s = some t →
      1 / 100 ≤ qAbs t.amount ∧ qAbs t.amount ≤ 10000000) := by
  constructor
  · intro now row t h
    have hinv := (parse_table_row_inv now row t h).2.1
    have h0 : (({} : RowState)).amount = none := rfl
    rw [rowScan, foldl_rowStep_amount_scan now _ _ h0] at hinv
    have := List.exists_of_findSome?_eq_some hinv
    obtain ⟨c, _, hc⟩ := this
    exact cellAmount_bound _ _ hc
  · intro now s t h
    unfold parse_single_transaction at h
    split at h
    · exact absurd h (by simp)
    · dsimp only at h
      split at h
      · exact absurd h (by simp)
      · split at h
        · exact absurd h (by simp)
        · split at h
          · exact absurd h (by simp)
          · split at h
            · exact absurd h (by simp)
            · rename_i hbound
              cases h
              exact not_not.mp hbound

/-- Witness for C2 at concrete successful parses on both paths. -/
theorem claim_C2_bounds_witness :
    (1 / 100 ≤ qAbs (1 : ℚ) ∧ qAbs (1 : ℚ) ≤ 10000000) ∧
    (1 / 100 ≤ qAbs (50 : ℚ) ∧ qAbs (50 : ℚ) ≤ 10000000) :=
  ⟨by
    have := claim_C2_bounds.1 now0
      ["01-10-2025".data, "Paid to Shiv Kumar".data, "₹85".data]
      ⟨⟨2025, 10, 1⟩, 1, TType.Debit, unknownDescr⟩ (by decide)
    exact this,
   by
    have := claim_C2_bounds.2 now0 "01Oct,2025 Somebody ₹50 08:00AM".data
      ⟨⟨2025, 10, 1⟩, 50, TType.Debit, "Somebody".data⟩ (by decide)
    exact this⟩

/-- C3 counterexample: the row `["02-11-2025", "Some Person", "₹90"]`
contains no direction keyword in any cell, yet the Row Parser returns a
record typed `Credit` (the sign-based default at lines 267-270 yields
`Credit` for a non-negative amount), refuting "the record's direction/type
is the default Debit" for keyword-free rows. -/
theorem claim_C3_counterexample :
    parse_table_row now0 ["02-11-2025".data, "Some Person".data, "₹90".data] =
      some ⟨⟨2025, 11, 2⟩, 2, TType.Credit, "Some Person".data⟩ ∧
    (["02-11-2025".data, "Some Person".data, "₹90".data].all
      (fun c => (cellType (stripWs c)).isNone)) = true ∧
    TType.Credit ≠ TType.Debit := by
  refine ⟨by decide, by decide, by decide⟩

/-- C3 as amended: a text-path fragment with no direction keyword defaults
to Debit; a table row with no direction keyword in any cell gets its type
from the amount's sign — Debit only when the amount is negative, Credit
otherwise (the unconditional Debit default of the row parser applies only
when the amount is absent, and such rows are discarded). -/
theorem claim_C3_amended :
    (∀ (now : Date) (s : Str) (t : Tx),
      parse_single_transaction now s = some t →
      debitKeywords.any (fun kw => containsSub kw (toLowerStr s)) = false →
      creditKeywords.any (fun kw => containsSub kw (toLowerStr s)) = false →
      t.ty = TType.Debit) ∧
    (∀ (now : Date) (row : List Str) (t : Tx),
      parse_table_row now row = some t →
      (∀ c ∈ row, cellType (stripWs c) = none) →
      t.ty = if t.amount < 0 then TType.Debit else TType.Credit) := by
  constructor
  · intro now s t h hd hc
    unfold parse_single_transaction at h
    split at h
    · exact absurd h (by simp)
    · dsimp only at h
      split at h
      · exact absurd h (by simp)
      · split at h
        · exact absurd h (by simp)
        · split at h
          · exact absurd h (by simp)
          · split at h
            · exact absurd h (by simp)
            · cases h
              simp only [hd, hc]
              rfl
  · intro now row t h hnone
    obtain ⟨_, ha, hty, _⟩ := parse_table_row_inv now row t h
    have hscan : (rowScan now (rowFilter row)).ty = none := by
      unfold rowScan
      rw [foldl_rowStep_ty_none]
      intro c hc
      exact hnone c (List.mem_of_mem_filter hc)
    rw [← hty]
    unfold rowTy
    rw [hscan, ha]

/-- Witness for C3's amended statement on both paths. -/
theorem claim_C3_amended_witness :
    (⟨⟨2025, 10, 1⟩, 50, TType.Debit, "Somebody".data⟩ : Tx).ty =
      TType.Debit ∧
    (⟨⟨2025, 11, 2⟩, 2, TType.Credit, "Some Person".data⟩ : Tx).ty =
      (if (⟨⟨2025, 11, 2⟩, 2, TType.Credit, "Some Person".data⟩ : Tx).amount
          < 0 then TType.Debit else TType.Credit) :=
  ⟨claim_C3_amended.1 now0 "01Oct,2025 Somebody ₹50 08:00AM".data
      ⟨⟨2025, 10, 1⟩, 50, TType.Debit, "Somebody".data⟩
      (by decide) (by decide) (by decide),
   claim_C3_amended.2 now0
      ["02-11-2025".data, "Some Person".data, "₹90".data]
      ⟨⟨2025, 11, 2⟩, 2, TType.Credit, "Some Person".data⟩
      (by decide) (by decide)⟩

/-- Auxiliary: a table-row processing step only ever appends to the
accumulated collection. -/
theorem processTableRow_append (now : Date) (acc : List Tx) (idx : ℕ)
    (row : List Str) :
    processTableRow now acc idx row = acc ++ processTableRow now [] idx row := by
  unfold processTableRow
  dsimp only
  split
  · simp
  · split
    · simp
    · split
      · simp
      · split <;> simp

/-- Auxiliary: an indexed fold of row steps only ever appends. -/
theorem foldIndexed_append (now : Date) :
    ∀ (prs : List (ℕ × List Str)) (acc : List Tx),
      prs.foldl (fun a pr => processTableRow now a pr.1 pr.2) acc =
        acc ++ prs.foldl (fun a pr => processTableRow now a pr.1 pr.2) [] := by
  intro prs
  induction prs with
  | nil => intro acc; simp
  | cons pr prs ih =>
    intro acc
    rw [List.foldl_cons, List.foldl_cons, ih, processTableRow_append,
      ih (processTableRow now [] pr.1 pr.2), List.append_assoc]

/-- Auxiliary: accepting a text candidate never removes an accepted record,
and a record already accepted once stays accepted exactly once (every later
text candidate equal to it is suppressed by the duplicate test). -/
theorem addTextTxns_count_mem (e : Tx) :
    ∀ (txs acc : List Tx), e ∈ acc →
      List.count e (addTextTxns acc txs) = List.count e acc := by
  intro txs
  induction txs with
  | nil => intro acc _; rfl
  | cons tx txs ih =>
    intro acc hmem
    unfold addTextTxns
    rw [List.foldl_cons]
    by_cases hdup : isDup tx acc
    · rw [if_pos hdup]
      exact ih acc hmem
    · rw [if_neg hdup]
      have htx : tx ≠ e := by
        intro heq
        apply hdup
        subst heq
        unfold isDup
        rw [List.any_eq_true]
        refine ⟨tx, hmem, ?_⟩
        unfold isDupOf
        simp [qAbs]
      have h0 : List.count e [tx] = 0 := by
        rw [List.count_eq_zero]
        intro hmem2
        exact htx (List.mem_singleton.mp hmem2).symm
      have hcnt : List.count e (acc ++ [tx]) = List.count e acc := by
        rw [List.count_append, h0]
        omega
      rw [← hcnt]
      exact ih (acc ++ [tx]) (List.mem_append_left _ hmem)

/-- C4: (a) a text-path candidate that duplicates an already-accepted
candidate (same date, amount difference below 0.01, equal 20-character
description head) is dropped by the merge loop; (b) a record accepted
exactly once stays in the collection exactly once after any text-path
merge; (c) the table path appends unconditionally — its collection step
never consults the accumulated records, so table candidates are never
de-duplicated against each other during collection. -/
theorem claim_C4_dedup :
    (∀ (acc : List Tx) (tx : Tx) (rest : List Tx), isDup tx acc = true →
      addTextTxns acc (tx :: rest) = addTextTxns acc rest) ∧
    (∀ (e : Tx) (acc txs : List Tx), List.count e acc = 1 →
      List.count e (addTextTxns acc txs) = 1) ∧
    (∀ (now : Date) (acc : List Tx) (tbl : List (List Str)),
      processTable now acc tbl = acc ++ processTable now [] tbl) := by
  refine ⟨?_, ?_, ?_⟩
  · intro acc tx rest h
    unfold addTextTxns
    rw [List.foldl_cons, if_pos h]
  · intro e acc txs h
    rw [addTextTxns_count_mem e txs acc (List.count_pos_iff.mp (by omega))]
    exact h
  · intro now acc tbl
    unfold processTable
    exact foldIndexed_append now tbl.enum acc

/-- Witness for C4 at a concrete duplicate pair. -/
theorem claim_C4_dedup_witness :
    addTextTxns [⟨⟨2025, 10, 1⟩, 85, TType.Debit, "PaidtoShiv Kumar".data⟩]
        [⟨⟨2025, 10, 1⟩, 85, TType.Debit, "PaidtoShiv Kumar".data⟩] =
      addTextTxns [⟨⟨2025, 10, 1⟩, 85, TType.Debit, "PaidtoShiv Kumar".data⟩]
        [] ∧
    List.count ⟨⟨2025, 10, 1⟩, 85, TType.Debit, "PaidtoShiv Kumar".data⟩
      (addTextTxns
        [⟨⟨2025, 10, 1⟩, 85, TType.Debit, "PaidtoShiv Kumar".data⟩]
        [⟨⟨2025, 10, 1⟩, 85, TType.Debit, "PaidtoShiv Kumar".data⟩,
         ⟨⟨2025, 10, 1⟩, 85, TType.Debit, "PaidtoShiv Kumar".data⟩]) = 1 :=
  ⟨claim_C4_dedup.1 _ _ _ (by decide),
   claim_C4_dedup.2.1 _ _ _ (by decide)⟩

/-- C10: cell role classification in the Row Parser is not exclusive — the
amount of every returned record equals the first in-bounds per-cell amount
over the filtered cells in row order, with the date-locked cell included in
the scan.  In particular, on the spec's example row the cell "01-10-2025"
locks the date and simultaneously supplies the amount 1.0 (its digit group
"01"), pre-empting the dedicated `₹85` cell. -/
theorem claim_C10_first_cell_amount :
    (∀ (now : Date) (row : List Str) (t : Tx),
      parse_table_row now row = some t →
      firstCellAmount (rowFilter row) = some t.amount) ∧
    cellDate now0 "01-10-2025".data = some ⟨2025, 10, 1⟩ ∧
    cellAmount "01-10-2025".data = some 1 ∧
    firstCellAmount
      ["01-10-2025".data, "Paid to Shiv Kumar".data, "₹85".data] = some 1 := by
  refine ⟨?_, by decide, by decide, by decide⟩
  intro now row t h
  have hinv := (parse_table_row_inv now row t h).2.1
  have h0 : (({} : RowState)).amount = none := rfl
  rw [rowScan, foldl_rowStep_amount_scan now _ _ h0] at hinv
  exact hinv ▸ rfl

/-- Witness for C10 at the spec's example row. -/
theorem claim_C10_witness :
    firstCellAmount
        (rowFilter
          ["01-10-2025".data, "Paid to Shiv Kumar".data, "₹85".data]) =
      some (Tx.amount ⟨⟨2025, 10, 1⟩, 1, TType.Debit, unknownDescr⟩) :=
  claim_C10_first_cell_amount.1 now0
    ["01-10-2025".data, "Paid to Shiv Kumar".data, "₹85".data]
    ⟨⟨2025, 10, 1⟩, 1, TType.Debit, unknownDescr⟩ (by decide)

/-! Claim C9: round-trip of the text-path Amount Extractor through Indian
thousands-separator formatting.  The renderers below are claim-side
definitions (they follow the spec's words "formatting it with a currency
symbol and Indian thousands-separator grouping"); the extractor
`extract_amount` is the amount step of `_parse_single_transaction`
(lines 380-391 of the source). -/

/-- The decimal digit character for a value below ten. -/
def dChar (n : ℕ) : Char := Char.ofNat (48 + n)

/-- Fuel-driven decimal digit rendering (most significant first; the fuel
`n + 1` always suffices since the argument strictly shrinks). -/
def natDigitsAux : ℕ → ℕ → Str
  | 0, _ => []
  | fuel + 1, n =>
    if n = 0 then [] else natDigitsAux fuel (n / 10) ++ [dChar (n % 10)]

/-- Decimal digit characters of `n`, most significant first (`"0"` for 0). -/
def natDigitsChars (n : ℕ) : Str :=
  if n = 0 then ['0'] else natDigitsAux (n + 1) n

/-- Two-digit zero-padded rendering (used for the paise part). -/
def render2 (n : ℕ) : Str := [dChar (n / 10), dChar (n % 10)]

/-- Grouping in twos over a reversed digit list (least significant digit
first): a comma after every second digit. -/
def revGroup2 : Str → Str
  | [] => []
  | [a] => [a]
  | [a, b] => [a, b]
  | a :: b :: c :: t => a :: b :: ',' :: revGroup2 (c :: t)

/-- Indian grouping of the digits above the last three: groups of two from
the right. -/
def indianGroupHigh (xs : Str) : Str := (revGroup2 xs.reverse).reverse

/-- Indian grouping: the last three digits form one group, the digits above
them are grouped in twos. -/
def indianGroup (xs : Str) : Str :=
  if xs.length ≤ 3 then xs
  else
    indianGroupHigh (xs.take (xs.length - 3)) ++ ',' :: xs.drop (xs.length - 3)

/-- Short digit blocks are left ungrouped. -/
theorem indianGroupHigh_base (xs : Str) (h : xs.length ≤ 2) :
    indianGroupHigh xs = xs := by
  match xs, h with
  | [], _ => rfl
  | [a], _ => rfl
  | [a, b], _ => rfl

/-- Unfolding step of the high-part grouping: split off the last two
digits. -/
theorem indianGroupHigh_step (xs : Str) (h : 3 ≤ xs.length) :
    indianGroupHigh xs =
      indianGroupHigh (xs.take (xs.length - 2)) ++ ','
        :: xs.drop (xs.length - 2) := by
  obtain ⟨a, b, c, t, hrev⟩ : ∃ a b c t, xs.reverse = a :: b :: c :: t := by
    have hl : 3 ≤ xs.reverse.length := by simpa using h
    match xs.reverse, hl with
    | a :: b :: c :: t, _ => exact ⟨a, b, c, t, rfl⟩
  have hx : xs = (c :: t).reverse ++ [b, a] := by
    have := congrArg List.reverse hrev
    simpa [List.reverse_cons, List.append_assoc] using this
  have hxl : xs.length = t.length + 3 := by
    have := congrArg List.length hrev
    simpa using this
  have hlen2 : ((c :: t).reverse ++ [b, a]).length - 2 =
      (c :: t).reverse.length := by
    simp
  have htake : xs.take (xs.length - 2) = (c :: t).reverse := by
    rw [hx, hlen2, List.take_left]
  have hdrop : xs.drop (xs.length - 2) = [b, a] := by
    rw [hx, hlen2, List.drop_left]
  rw [htake, hdrop]
  unfold indianGroupHigh
  rw [hrev, List.reverse_reverse]
  rw [show revGroup2 (a :: b :: c :: t) = a :: b :: ',' :: revGroup2 (c :: t)
    from rfl]
  simp [List.reverse_cons, List.append_assoc]

/-- Indian-grouped currency rendering of a magnitude of `p` paise, with the
currency symbol and two decimal places: e.g. `16414810 ↦ "₹1,64,148.10"`. -/
def formatAmountPaise (p : ℕ) : Str :=
  '₹' :: indianGroup (natDigitsChars (p / 100)) ++ '.' :: render2 (p % 100)

/-- The amount step of `_parse_single_transaction` (search the ₹ pattern,
strip the Indian comma notation from group 1, parse, bound-check). -/
def extract_amount (s : Str) : Option ℚ :=
  match searchAmt s with
  | none => none
  | some (_, _, g1) =>
    match parseFloatQ (stripCommasStr g1) with
    | none => none
    | some v =>
      if 1 / 100 ≤ qAbs v ∧ qAbs v ≤ 10000000 then some v else none

/-- Digit characters are digits. -/
theorem isDigitC_dChar (n : ℕ) (h : n ≤ 9) : isDigitC (dChar n) = true := by
  interval_cases n <;> decide

/-- Digit value of a digit character. -/
theorem digitVal_dChar (n : ℕ) (h : n ≤ 9) : digitVal (dChar n) = n := by
  interval_cases n <;> decide

/-- A digit character is not a comma. -/
theorem ne_comma_of_digit (c : Char) (h : isDigitC c = true) : c ≠ ',' := by
  intro hc
  rw [hc] at h
  exact absurd h (by decide)

/-- A digit character is not a whitespace character. -/
theorem not_space_of_digit (c : Char) (h : isDigitC c = true) :
    isSpaceC c = false := by
  by_contra hs
  rw [Bool.not_eq_false] at hs
  unfold isSpaceC at hs
  simp only [Bool.or_eq_true, decide_eq_true_eq] at hs
  rcases hs with ((((hc | hc) | hc) | hc) | hc) | hc <;>
    (rw [hc] at h; exact absurd h (by decide))

/-- Predicate: the string does not start with a digit. -/
def headNotDigit : Str → Prop
  | [] => True
  | c :: _ => isDigitC c = false

/-- Predicate: the string does not start with a comma. -/
def headNotComma : Str → Prop
  | [] => True
  | c :: _ => c ≠ ','

/-- Ordered choice keeps a successful first alternative. -/
theorem orElse_isSome_left {α : Type} {x y : Option α} (hx : x.isSome) :
    (x <|> y) = x := by
  cases x with
  | none => exact absurd hx (by simp)
  | some v => rfl

/-- Step equation of `pCntCls` at zero. -/
theorem pCntCls_zero {R : Type} (p : Char → Bool) (lo : ℕ)
    (k : Str → Option R) (s : Str) :
    pCntCls p lo 0 k s = if lo = 0 then k s else none := rfl

/-- Step equation of `pCntCls` at a successor. -/
theorem pCntCls_succ {R : Type} (p : Char → Bool) (lo hi : ℕ)
    (k : Str → Option R) (s : Str) :
    pCntCls p lo (hi + 1) k s =
      ((match s with
        | x :: xs => if p x then pCntCls p (lo - 1) hi k xs else none
        | [] => none) <|>
       (if lo = 0 then k s else none)) := rfl

/-- Step equation of `pStar` at a successor. -/
theorem pStar_succ {R : Type} (body : Pat R) (fuel : ℕ)
    (k : Str → Option R) (s : Str) :
    pStar body (fuel + 1) k s =
      (body (fun s2 => pStar body fuel k s2) s <|> k s) := rfl

/-- An always-succeeding continuation keeps `pOpt` succeeding. -/
theorem pOpt_isSome {R : Type} (x : Pat R) (k : Str → Option R)
    (hk : ∀ u, (k u).isSome) (s : Str) : (pOpt x k s).isSome := by
  unfold pOpt
  cases hx : x k s with
  | none => simpa using hk s
  | some v => simp

/-- An always-succeeding continuation keeps `pStar` succeeding. -/
theorem pStar_isSome {R : Type} (body : Pat R) (k : Str → Option R)
    (hk : ∀ u, (k u).isSome) : ∀ (fuel : ℕ) (s : Str),
    (pStar body fuel k s).isSome := by
  intro fuel
  induction fuel with
  | zero => intro s; exact hk s
  | succ n ih =>
    intro s
    rw [pStar_succ]
    cases hb : body (fun s2 => pStar body n k s2) s with
    | none => simpa using hk s
    | some v => simp

/-- With no leading digit and a zero lower bound, counted repetition stops
and hands the input to the continuation. -/
theorem pCnt0_stop {R : Type} (hi : ℕ) (k : Str → Option R) (rest : Str)
    (hrest : headNotDigit rest) : pCntCls isDigitC 0 hi k rest = k rest := by
  cases hi with
  | zero => rfl
  | succ n =>
    rw [pCntCls_succ]
    cases rest with
    | nil => rfl
    | cons c t =>
      have hc : isDigitC c = false := hrest
      simp [hc]

/-- Greedy `\d{1,3}` consumes exactly a 1-3 digit block when followed by a
non-digit, provided the continuation always succeeds. -/
theorem pCnt13_digits {R : Type} (k : Str → Option R) (f rest : Str)
    (hf : ∀ c ∈ f, isDigitC c = true) (h1 : 1 ≤ f.length)
    (h3 : f.length ≤ 3) (hrest : headNotDigit rest)
    (hk : ∀ u, (k u).isSome) :
    pCntCls isDigitC 1 3 k (f ++ rest) = k rest := by
  obtain ⟨v, hv⟩ := Option.isSome_iff_exists.mp (hk rest)
  match f, h1, h3 with
  | [a], _, _ =>
    have ha := hf a (by simp)
    cases rest with
    | nil => simp [pCntCls_succ, pCntCls_zero, ha, hv]
    | cons c t =>
      have hc : isDigitC c = false := hrest
      simp [pCntCls_succ, pCntCls_zero, ha, hc, hv]
  | [a, b], _, _ =>
    have ha := hf a (by simp)
    have hb := hf b (by simp)
    cases rest with
    | nil => simp [pCntCls_succ, pCntCls_zero, ha, hb, hv]
    | cons c t =>
      have hc : isDigitC c = false := hrest
      simp [pCntCls_succ, pCntCls_zero, ha, hb, hc, hv]
  | [a, b, c], _, _ =>
    have ha := hf a (by simp)
    have hb := hf b (by simp)
    have hcd := hf c (by simp)
    cases rest with
    | nil => simp [pCntCls_succ, pCntCls_zero, ha, hb, hcd, hv]
    | cons d t =>
      have hd : isDigitC d = false := hrest
      simp [pCntCls_succ, pCntCls_zero, ha, hb, hcd, hd, hv]

/-- Greedy `\d{2,3}` consumes exactly a 2-3 digit block when followed by a
non-digit, provided the continuation always succeeds. -/
theorem pCnt23_digits {R : Type} (k : Str → Option R) (f rest : Str)
    (hf : ∀ c ∈ f, isDigitC c = true) (h2 : 2 ≤ f.length)
    (h3 : f.length ≤ 3) (hrest : headNotDigit rest)
    (hk : ∀ u, (k u).isSome) :
    pCntCls isDigitC 2 3 k (f ++ rest) = k rest := by
  obtain ⟨v, hv⟩ := Option.isSome_iff_exists.mp (hk rest)
  match f, h2, h3 with
  | [a, b], _, _ =>
    have ha := hf a (by simp)
    have hb := hf b (by simp)
    cases rest with
    | nil => simp [pCntCls_succ, pCntCls_zero, ha, hb, hv]
    | cons c t =>
      have hc : isDigitC c = false := hrest
      simp [pCntCls_succ, pCntCls_zero, ha, hb, hc, hv]
  | [a, b, c], _, _ =>
    have ha := hf a (by simp)
    have hb := hf b (by simp)
    have hcd := hf c (by simp)
    cases rest with
    | nil => simp [pCntCls_succ, pCntCls_zero, ha, hb, hcd, hv]
    | cons d t =>
      have hd : isDigitC d = false := hrest
      simp [pCntCls_succ, pCntCls_zero, ha, hb, hcd, hd, hv]

/-- Greedy `\d{1,2}` consumes exactly a 1-2 digit block when followed by a
non-digit, provided the continuation always succeeds. -/
theorem pCnt12_digits {R : Type} (k : Str → Option R) (f rest : Str)
    (hf : ∀ c ∈ f, isDigitC c = true) (h1 : 1 ≤ f.length)
    (h2 : f.length ≤ 2) (hrest : headNotDigit rest)
    (hk : ∀ u, (k u).isSome) :
    pCntCls isDigitC 1 2 k (f ++ rest) = k rest := by
  obtain ⟨v, hv⟩ := Option.isSome_iff_exists.mp (hk rest)
  match f, h1, h2 with
  | [a], _, _ =>
    have ha := hf a (by simp)
    cases rest with
    | nil => simp [pCntCls_succ, pCntCls_zero, ha, hv]
    | cons c t =>
      have hc : isDigitC c = false := hrest
      simp [pCntCls_succ, pCntCls_zero, ha, hc, hv]
  | [a, b], _, _ =>
    have ha := hf a (by simp)
    have hb := hf b (by simp)
    cases rest with
    | nil => simp [pCntCls_succ, pCntCls_zero, ha, hb, hv]
    | cons c t =>
      have hc : isDigitC c = false := hrest
      simp [pCntCls_succ, pCntCls_zero, ha, hb, hc, hv]

/-- Comma-separated rendering of a list of digit groups (each group
prefixed with a comma). -/
def flatGroups (gs : List Str) : Str :=
  gs.foldr (fun g acc => ',' :: g ++ acc) []

/-- Each group contributes at least one character. -/
theorem flatGroups_length_ge (gs : List Str) :
    gs.length ≤ (flatGroups gs).length := by
  induction gs with
  | nil => simp [flatGroups]
  | cons g gs ih =>
    simp only [flatGroups, List.foldr_cons, List.length_cons,
      List.length_append]
    simp only [flatGroups] at ih
    omega

/-- The flattened groups never start with a digit (they start with a
comma or are empty). -/
theorem headNotDigit_flatGroups (gs : List Str) (rest : Str)
    (hrest : headNotDigit rest) : headNotDigit (flatGroups gs ++ rest) := by
  cases gs with
  | nil => simpa [flatGroups] using hrest
  | cons g gs =>
    show isDigitC ',' = false
    decide

/-- Greedy `(?:,\d{2,3})*` consumes exactly the comma-separated groups when
followed by neither a comma nor a digit, provided the continuation always
succeeds and the fuel covers the groups. -/
theorem pStar_groups {R : Type} (k : Str → Option R)
    (hk : ∀ u, (k u).isSome) :
    ∀ (gs : List Str) (fuel : ℕ) (rest : Str),
      (∀ g ∈ gs, (g.length = 2 ∨ g.length = 3) ∧
        ∀ c ∈ g, isDigitC c = true) →
      headNotDigit rest → headNotComma rest → gs.length ≤ fuel →
      pStar commaGroupPat fuel k (flatGroups gs ++ rest) = k rest := by
  intro gs
  induction gs with
  | nil =>
    intro fuel rest _ hrd hrc _
    simp only [flatGroups, List.foldr_nil, List.nil_append]
    cases fuel with
    | zero => rfl
    | succ n =>
      rw [pStar_succ]
      cases rest with
      | nil => simp [commaGroupPat, pChar]
      | cons c t =>
        have hc : c ≠ ',' := hrc
        simp [commaGroupPat, pChar, hc]
  | cons g gs ih =>
    intro fuel rest hgs hrd hrc hfuel
    cases fuel with
    | zero => exact absurd hfuel (by simp)
    | succ n =>
      rw [pStar_succ]
      have hgrp := hgs g (by simp)
      have hflat : flatGroups (g :: gs) ++ rest =
          ',' :: (g ++ (flatGroups gs ++ rest)) := by
        simp [flatGroups, List.append_assoc]
      have hbody : commaGroupPat (fun s2 => pStar commaGroupPat n k s2)
          (',' :: (g ++ (flatGroups gs ++ rest))) = k rest := by
        rw [show (commaGroupPat (fun s2 => pStar commaGroupPat n k s2)
            (',' :: (g ++ (flatGroups gs ++ rest))) : Option R) =
            pCntCls isDigitC 2 3 (fun s2 => pStar commaGroupPat n k s2)
              (g ++ (flatGroups gs ++ rest)) from rfl]
        rw [pCnt23_digits _ g (flatGroups gs ++ rest) hgrp.2
            (by rcases hgrp.1 with h2 | h2 <;> omega)
            (by rcases hgrp.1 with h2 | h2 <;> omega)
            (headNotDigit_flatGroups gs rest hrd)
            (fun u => pStar_isSome commaGroupPat k hk n u)]
        exact ih n rest (fun g2 hg2 => hgs g2 (by simp [hg2])) hrd hrc
          (by simp only [List.length_cons] at hfuel; omega)
      rw [hflat, hbody]
      exact orElse_isSome_left (hk rest)

/-- Greedy optional decimal part: `(?:\.\d{1,2})?` takes the whole
two-digit decimal tail. -/
theorem pOpt_dec_tail {R : Type} (k : Str → Option R)
    (hk : ∀ u, (k u).isSome) (c1 c2 : Char) (h1 : isDigitC c1 = true)
    (h2 : isDigitC c2 = true) :
    pOpt decPartPat k ('.' :: [c1, c2]) = k [] := by
  have hdec : decPartPat k ('.' :: [c1, c2]) = k [] := by
    rw [show (decPartPat k ('.' :: [c1, c2]) : Option R) =
        pCntCls isDigitC 1 2 k [c1, c2] from rfl]
    rw [show ([c1, c2] : Str) = [c1, c2] ++ [] from by simp]
    exact pCnt12_digits k [c1, c2] [] (by simp [h1, h2]) (by simp) (by simp)
      trivial hk
  unfold pOpt
  rw [hdec]
  exact orElse_isSome_left (hk [])

/-- The full numeral pattern consumes an Indian-grouped integer part plus a
two-digit decimal tail entirely. -/
theorem numeralCore_grouped {R : Type} (k : Str → Option R)
    (hk : ∀ u, (k u).isSome) (f : Str) (gs : List Str) (c1 c2 : Char)
    (hf : ∀ c ∈ f, isDigitC c = true) (hf1 : 1 ≤ f.length)
    (hf3 : f.length ≤ 3)
    (hgs : ∀ g ∈ gs, (g.length = 2 ∨ g.length = 3) ∧
      ∀ c ∈ g, isDigitC c = true)
    (h1 : isDigitC c1 = true) (h2 : isDigitC c2 = true) :
    numeralCore k (f ++ (flatGroups gs ++ '.' :: [c1, c2])) = k [] := by
  unfold numeralCore
  have hk2 : ∀ u, ((fun s2 =>
      pStar commaGroupPat (s2.length + 1) (pOpt decPartPat k) s2) u).isSome :=
    fun u => pStar_isSome commaGroupPat (pOpt decPartPat k)
      (fun w => pOpt_isSome decPartPat k hk w) (u.length + 1) u
  rw [pCnt13_digits _ f (flatGroups gs ++ '.' :: [c1, c2]) hf hf1 hf3
    (headNotDigit_flatGroups gs _ (by show isDigitC '.' = false; decide)) hk2]
  rw [pStar_groups (pOpt decPartPat k)
    (fun w => pOpt_isSome decPartPat k hk w) gs _ ('.' :: [c1, c2]) hgs
    (by show isDigitC '.' = false; decide)
    (by show ('.' : Char) ≠ ','; decide)
    (le_trans (flatGroups_length_ge gs)
      (by simp only [List.length_append, List.length_cons]; omega))]
  exact pOpt_dec_tail k hk c1 c2 h1 h2

/-- The text amount pattern, anchored after `₹`, consumes exactly the whole
grouped numeral: group 1 spans from after `₹` to the end. -/
theorem amtTextAt_grouped (f : Str) (gs : List Str) (c1 c2 : Char)
    (hf : ∀ c ∈ f, isDigitC c = true) (hf1 : 1 ≤ f.length)
    (hf3 : f.length ≤ 3)
    (hgs : ∀ g ∈ gs, (g.length = 2 ∨ g.length = 3) ∧
      ∀ c ∈ g, isDigitC c = true)
    (h1 : isDigitC c1 = true) (h2 : isDigitC c2 = true) :
    amtTextAt ('₹' :: (f ++ (flatGroups gs ++ '.' :: [c1, c2]))) =
      some (f ++ (flatGroups gs ++ '.' :: [c1, c2]), []) := by
  unfold amtTextAt
  rw [show (pChar '₹' (fun s1 => pRunCls isSpaceC (fun s2 =>
      numeralCore (fun s3 => some (s2, s3)) s2) s1)
      ('₹' :: (f ++ (flatGroups gs ++ '.' :: [c1, c2])))
      : Option (Str × Str)) =
      pRunCls isSpaceC (fun s2 => numeralCore (fun s3 => some (s2, s3)) s2)
        (f ++ (flatGroups gs ++ '.' :: [c1, c2])) from rfl]
  obtain ⟨a, f2, rfl⟩ : ∃ a f2, f = a :: f2 := by
    cases f with
    | nil => exact absurd hf1 (by simp)
    | cons a f2 => exact ⟨a, f2, rfl⟩
  have ha : isDigitC a = true := hf a (by simp)
  rw [show (pRunCls isSpaceC (fun s2 =>
      numeralCore (fun s3 => some (s2, s3)) s2)
      ((a :: f2) ++ (flatGroups gs ++ '.' :: [c1, c2]))
      : Option (Str × Str)) =
      (if isSpaceC a then
        (pRunCls isSpaceC (fun s2 => numeralCore (fun s3 => some (s2, s3)) s2)
          (f2 ++ (flatGroups gs ++ '.' :: [c1, c2])) <|>
         numeralCore
           (fun s3 => some ((a :: f2) ++ (flatGroups gs ++ '.' :: [c1, c2]), s3))
           ((a :: f2) ++ (flatGroups gs ++ '.' :: [c1, c2])))
      else numeralCore
        (fun s3 => some ((a :: f2) ++ (flatGroups gs ++ '.' :: [c1, c2]), s3))
        ((a :: f2) ++ (flatGroups gs ++ '.' :: [c1, c2]))) from rfl]
  rw [not_space_of_digit a ha]
  simp only [Bool.false_eq_true, if_false]
  exact numeralCore_grouped _ (fun u => by simp) (a :: f2) gs c1 c2 hf hf1 hf3
    hgs h1 h2

/-- The ₹-pattern search on the rendered amount succeeds at position 0 with
group 0 the whole string and group 1 the whole numeral. -/
theorem searchAmt_grouped (f : Str) (gs : List Str) (c1 c2 : Char)
    (hf : ∀ c ∈ f, isDigitC c = true) (hf1 : 1 ≤ f.length)
    (hf3 : f.length ≤ 3)
    (hgs : ∀ g ∈ gs, (g.length = 2 ∨ g.length = 3) ∧
      ∀ c ∈ g, isDigitC c = true)
    (h1 : isDigitC c1 = true) (h2 : isDigitC c2 = true) :
    searchAmt ('₹' :: (f ++ (flatGroups gs ++ '.' :: [c1, c2]))) =
      some (0, '₹' :: (f ++ (flatGroups gs ++ '.' :: [c1, c2])),
        f ++ (flatGroups gs ++ '.' :: [c1, c2])) := by
  unfold searchAmt searchAmtAux
  rw [amtTextAt_grouped f gs c1 c2 hf hf1 hf3 hgs h1 h2]
  simp

/-- Flattening distributes over group-list append. -/
theorem flatGroups_append (gs hs : List Str) :
    flatGroups (gs ++ hs) = flatGroups gs ++ flatGroups hs := by
  induction gs with
  | nil => simp [flatGroups]
  | cons g gs ih => simp [flatGroups, List.append_assoc] at ih ⊢; simp [ih]

/-- Shape of the high-part grouping: a leading group of one or two digits
followed by comma-prefixed two-digit groups. -/
theorem indianGroupHigh_shape :
    ∀ (m : ℕ) (xs : Str), xs.length ≤ m → 1 ≤ xs.length →
      (∀ c ∈ xs, isDigitC c = true) →
      ∃ f gs, indianGroupHigh xs = f ++ flatGroups gs ∧ 1 ≤ f.length ∧
        f.length ≤ 3 ∧ (∀ c ∈ f, isDigitC c = true) ∧
        (∀ g ∈ gs, (g.length = 2 ∨ g.length = 3) ∧
          ∀ c ∈ g, isDigitC c = true) := by
  intro m
  induction m with
  | zero => intro xs hm h1 _; omega
  | succ n ih =>
    intro xs hm h1 hd
    by_cases hcut : xs.length ≤ 2
    · rw [indianGroupHigh_base xs hcut]
      exact ⟨xs, [], by simp [flatGroups], h1, by omega, hd, by simp⟩
    · push_neg at hcut
      rw [indianGroupHigh_step xs (by omega)]
      obtain ⟨f, gs, heq, hf1, hf3, hfd, hgsp⟩ :=
        ih (xs.take (xs.length - 2))
          (by simp only [List.length_take]; omega)
          (by simp only [List.length_take]; omega)
          (fun c hc => hd c (List.take_subset _ _ hc))
      refine ⟨f, gs ++ [xs.drop (xs.length - 2)], ?_, hf1, hf3, hfd, ?_⟩
      · rw [heq, flatGroups_append, List.append_assoc]
        simp [flatGroups]
      · intro g hg
        rcases List.mem_append.mp hg with hg1 | hg1
        · exact hgsp g hg1
        · rw [List.mem_singleton.mp hg1]
          refine ⟨Or.inl ?_, fun c hc => hd c (List.drop_subset _ _ hc)⟩
          simp only [List.length_drop]
          omega

/-- Shape of the full Indian grouping: a leading group of one to three
digits followed by comma-prefixed two- or three-digit groups. -/
theorem indianGroup_shape (xs : Str) (h1 : 1 ≤ xs.length)
    (hd : ∀ c ∈ xs, isDigitC c = true) :
    ∃ f gs, indianGroup xs = f ++ flatGroups gs ∧ 1 ≤ f.length ∧
      f.length ≤ 3 ∧ (∀ c ∈ f, isDigitC c = true) ∧
      (∀ g ∈ gs, (g.length = 2 ∨ g.length = 3) ∧
        ∀ c ∈ g, isDigitC c = true) := by
  unfold indianGroup
  split
  · exact ⟨xs, [], by simp [flatGroups], h1, by omega, hd, by simp⟩
  · rename_i hgt
    push_neg at hgt
    obtain ⟨f, gs, heq, hf1, hf3, hfd, hgsp⟩ :=
      indianGroupHigh_shape (xs.length - 3) (xs.take (xs.length - 3))
        (by simp only [List.length_take]; omega)
        (by simp only [List.length_take]; omega)
        (fun c hc => hd c (List.take_subset _ _ hc))
    refine ⟨f, gs ++ [xs.drop (xs.length - 3)], ?_, hf1, hf3, hfd, ?_⟩
    · rw [heq, flatGroups_append, List.append_assoc]
      simp [flatGroups]
    · intro g hg
      rcases List.mem_append.mp hg with hg1 | hg1
      · exact hgsp g hg1
      · rw [List.mem_singleton.mp hg1]
        refine ⟨Or.inr ?_, fun c hc => hd c (List.drop_subset _ _ hc)⟩
        simp only [List.length_drop]
        omega

/-- Removing commas from a comma-free string is the identity. -/
theorem stripCommas_no_comma (xs : Str) (h : ∀ c ∈ xs, c ≠ ',') :
    stripCommasStr xs = xs := by
  unfold stripCommasStr removeAllChar
  exact List.filter_eq_self.mpr (fun a ha => by simp [h a ha])

/-- Removing commas undoes the high-part grouping. -/
theorem stripCommas_indianGroupHigh :
    ∀ (m : ℕ) (xs : Str), xs.length ≤ m → (∀ c ∈ xs, c ≠ ',') →
      stripCommasStr (indianGroupHigh xs) = xs := by
  intro m
  induction m with
  | zero =>
    intro xs hm _
    have : xs = [] := List.length_eq_zero.mp (by omega)
    subst this
    rfl
  | succ n ih =>
    intro xs hm hnc
    by_cases hcut : xs.length ≤ 2
    · rw [indianGroupHigh_base xs hcut]
      exact stripCommas_no_comma xs hnc
    · push_neg at hcut
      rw [indianGroupHigh_step xs (by omega)]
      unfold stripCommasStr removeAllChar at *
      rw [List.filter_append]
      rw [ih (xs.take (xs.length - 2))
        (by simp only [List.length_take]; omega)
        (fun c hc => hnc c (List.take_subset _ _ hc))]
      have : List.filter (fun x => x ≠ ',')
          (',' :: xs.drop (xs.length - 2)) =
          List.filter (fun x => x ≠ ',') (xs.drop (xs.length - 2)) := by
        simp [List.filter]
      rw [this, List.filter_eq_self.mpr
        (fun a ha => by simp [hnc a (List.drop_subset _ _ ha)])]
      exact List.take_append_drop _ xs

/-- Removing commas undoes the Indian grouping. -/
theorem stripCommas_indianGroup (xs : Str) (hnc : ∀ c ∈ xs, c ≠ ',') :
    stripCommasStr (indianGroup xs) = xs := by
  unfold indianGroup
  split
  · exact stripCommas_no_comma xs hnc
  · unfold stripCommasStr removeAllChar
    rw [List.filter_append]
    have h1 := stripCommas_indianGroupHigh (xs.take (xs.length - 3)).length
      (xs.take (xs.length - 3)) le_rfl
      (fun c hc => hnc c (List.take_subset _ _ hc))
    unfold stripCommasStr removeAllChar at h1
    rw [h1]
    have : List.filter (fun x => x ≠ ',')
        (',' :: xs.drop (xs.length - 3)) =
        List.filter (fun x => x ≠ ',') (xs.drop (xs.length - 3)) := by
      simp [List.filter]
    rw [this, List.filter_eq_self.mpr
      (fun a ha => by simp [hnc a (List.drop_subset _ _ ha)])]
    exact List.take_append_drop _ xs

/-- Appending one character to a digit string shifts its value. -/
theorem digitsToNat_append_one (xs : Str) (c : Char) :
    digitsToNat (xs ++ [c]) = 10 * digitsToNat xs + digitVal c := by
  simp [digitsToNat, List.foldl_append]

/-- With sufficient fuel, the rendered digits are digit characters and
evaluate back to the rendered number. -/
theorem natDigitsAux_spec :
    ∀ (fuel n : ℕ), n < fuel →
      (∀ c ∈ natDigitsAux fuel n, isDigitC c = true) ∧
      digitsToNat (natDigitsAux fuel n) = n := by
  intro fuel
  induction fuel with
  | zero => intro n h; omega
  | succ m ih =>
    intro n h
    rw [natDigitsAux]
    split
    · rename_i h0
      subst h0
      exact ⟨by simp, rfl⟩
    · rename_i h0
      have hdiv : n / 10 < m := by
        have h1 : n / 10 < n := Nat.div_lt_self (by omega) (by norm_num)
        omega
      obtain ⟨ihd, ihv⟩ := ih (n / 10) hdiv
      constructor
      · intro c hc
        rcases List.mem_append.mp hc with hc1 | hc1
        · exact ihd c hc1
        · rw [List.mem_singleton.mp hc1]
          exact isDigitC_dChar _ (by omega)
      · rw [digitsToNat_append_one, ihv, digitVal_dChar _ (by omega)]
        omega

/-- The rendered digits of `n` evaluate back to `n`. -/
theorem digitsToNat_natDigitsChars (n : ℕ) :
    digitsToNat (natDigitsChars n) = n := by
  unfold natDigitsChars
  split
  · rename_i h0
    subst h0
    decide
  · exact (natDigitsAux_spec (n + 1) n (by omega)).2

/-- The rendered digits of `n` are digit characters. -/
theorem natDigitsChars_digits (n : ℕ) :
    ∀ c ∈ natDigitsChars n, isDigitC c = true := by
  unfold natDigitsChars
  split
  · intro c hc
    rw [List.mem_singleton.mp hc]
    decide
  · exact (natDigitsAux_spec (n + 1) n (by omega)).1

/-- The rendered digits of `n` are nonempty. -/
theorem natDigitsChars_len (n : ℕ) : 1 ≤ (natDigitsChars n).length := by
  unfold natDigitsChars
  split
  · simp
  · rename_i h0
    rw [natDigitsAux, if_neg h0]
    simp

/-- The two-digit rendering evaluates back to its value. -/
theorem digitsToNat_render2 (x : ℕ) (hx : x < 100) :
    digitsToNat (render2 x) = x := by
  unfold render2 digitsToNat
  simp only [List.foldl_cons, List.foldl_nil]
  rw [digitVal_dChar (x / 10) (by omega), digitVal_dChar (x % 10) (by omega)]
  omega

/-- Splitting `takeWhile`/`dropWhile` at an all-matching block followed by a
non-matching head. -/
theorem takeWhile_dropWhile_block (p : Char → Bool) :
    ∀ (xs rest : Str), (∀ c ∈ xs, p c = true) →
      (match rest with | [] => True | c :: _ => p c = false) →
      (xs ++ rest).takeWhile p = xs ∧ (xs ++ rest).dropWhile p = rest := by
  intro xs
  induction xs with
  | nil =>
    intro rest _ hrest
    cases rest with
    | nil => exact ⟨rfl, rfl⟩
    | cons c t =>
      have hc : p c = false := hrest
      simp [List.takeWhile, List.dropWhile, hc]
  | cons x xs ih =>
    intro rest hxs hrest
    have hx : p x = true := hxs x (by simp)
    obtain ⟨h1, h2⟩ := ih rest (fun c hc => hxs c (by simp [hc])) hrest
    simp [List.takeWhile, List.dropWhile, hx, h1, h2]

/-- Python `float` on a digit string with a two-digit decimal tail. -/
theorem parseFloatQ_digits_dec (ds : Str) (c1 c2 : Char)
    (hds : ∀ c ∈ ds, isDigitC c = true) (h0 : ds ≠ [])
    (h1 : isDigitC c1 = true) (h2 : isDigitC c2 = true) :
    parseFloatQ (ds ++ '.' :: [c1, c2]) =
      some ((digitsToNat ds : ℚ) + (digitsToNat [c1, c2] : ℚ) / 100) := by
  obtain ⟨d, ds2, rfl⟩ := List.exists_cons_of_ne_nil h0
  have hd : isDigitC d = true := hds d (by simp)
  have hdot : isDigitC '.' = false := by decide
  obtain ⟨htake, hdrop⟩ := takeWhile_dropWhile_block isDigitC
    (d :: ds2) ('.' :: [c1, c2]) hds hdot
  have hne : d ≠ '-' := by
    intro hc
    rw [hc] at hd
    exact absurd hd (by decide)
  have hsign : parseFloatQ ((d :: ds2) ++ '.' :: [c1, c2]) =
      parseFloatCore ((d :: ds2) ++ '.' :: [c1, c2]) := by
    unfold parseFloatQ
    split
    · rename_i heq
      rw [List.cons_append] at heq
      cases heq
      exact absurd rfl hne
    · rfl
  rw [hsign]
  unfold parseFloatCore
  rw [List.cons_append] at htake hdrop ⊢
  rw [htake, hdrop]
  simp [h1, h2]
  norm_num

/-- C9: for every in-bounds magnitude (1 paise to 10 million rupees),
formatting with the currency symbol, Indian thousands-separator grouping
and two decimal places, then running the text-path Amount Extractor of
`_parse_single_transaction`, recovers the original magnitude exactly. -/
theorem claim_C9_roundtrip (p : ℕ) (hp1 : 1 ≤ p) (hp2 : p ≤ 1000000000) :
    extract_amount (formatAmountPaise p) = some ((p : ℚ) / 100) := by
  have hds_digits := natDigitsChars_digits (p / 100)
  have hds_len := natDigitsChars_len (p / 100)
  obtain ⟨f, gs, hshape, hf1, hf3, hfd, hgsp⟩ :=
    indianGroup_shape (natDigitsChars (p / 100)) hds_len hds_digits
  have hq : p % 100 < 100 := Nat.mod_lt _ (by norm_num)
  have h1 : isDigitC (dChar (p % 100 / 10)) = true :=
    isDigitC_dChar _ (by omega)
  have h2 : isDigitC (dChar (p % 100 % 10)) = true :=
    isDigitC_dChar _ (by omega)
  have hfmt : formatAmountPaise p =
      '₹' :: (f ++ (flatGroups gs ++
        '.' :: [dChar (p % 100 / 10), dChar (p % 100 % 10)])) := by
    unfold formatAmountPaise render2
    rw [hshape]
    simp [List.append_assoc]
  rw [hfmt]
  unfold extract_amount
  rw [searchAmt_grouped f gs _ _ hfd hf1 hf3 hgsp h1 h2]
  have hg1 : (f ++ (flatGroups gs ++
      '.' :: [dChar (p % 100 / 10), dChar (p % 100 % 10)])) =
      indianGroup (natDigitsChars (p / 100)) ++
        '.' :: [dChar (p % 100 / 10), dChar (p % 100 % 10)] := by
    rw [hshape, List.append_assoc]
  rw [hg1]
  dsimp only
  have hstrip2 : stripCommasStr (indianGroup (natDigitsChars (p / 100)) ++
      '.' :: [dChar (p % 100 / 10), dChar (p % 100 % 10)]) =
      natDigitsChars (p / 100) ++
        '.' :: [dChar (p % 100 / 10), dChar (p % 100 % 10)] := by
    unfold stripCommasStr removeAllChar
    rw [List.filter_append]
    have hh := stripCommas_indianGroup (natDigitsChars (p / 100))
      (fun c hc => ne_comma_of_digit c (hds_digits c hc))
    unfold stripCommasStr removeAllChar at hh
    rw [hh]
    have hrest : List.filter (fun x => x ≠ ',')
        ('.' :: [dChar (p % 100 / 10), dChar (p % 100 % 10)]) =
        '.' :: [dChar (p % 100 / 10), dChar (p % 100 % 10)] := by
      apply List.filter_eq_self.mpr
      intro a ha
      rcases List.mem_cons.mp ha with h | h
      · subst h; decide
      · rcases List.mem_cons.mp h with h | h
        · subst h
          simpa using ne_comma_of_digit _ h1
        · rw [List.mem_singleton.mp h]
          simpa using ne_comma_of_digit _ h2
    rw [hrest]
  rw [hstrip2]
  rw [parseFloatQ_digits_dec (natDigitsChars (p / 100)) _ _ hds_digits
    (by cases hcc : natDigitsChars (p / 100) with
        | nil => rw [hcc] at hds_len; exact absurd hds_len (by simp)
        | cons a b => simp) h1 h2]
  dsimp only
  have hint : digitsToNat (natDigitsChars (p / 100)) = p / 100 :=
    digitsToNat_natDigitsChars _
  have hfrac : digitsToNat [dChar (p % 100 / 10), dChar (p % 100 % 10)] =
      p % 100 := digitsToNat_render2 (p % 100) hq
  rw [hint, hfrac]
  have hval : ((p / 100 : ℕ) : ℚ) + ((p % 100 : ℕ) : ℚ) / 100 =
      (p : ℚ) / 100 := by
    have hpq : (p : ℚ) = 100 * ((p / 100 : ℕ) : ℚ) + ((p % 100 : ℕ) : ℚ) := by
      exact_mod_cast (Nat.div_add_mod p 100).symm
    rw [hpq]
    ring
  rw [hval]
  have hnonneg : (0 : ℚ) ≤ (p : ℚ) / 100 := by positivity
  have habs : qAbs ((p : ℚ) / 100) = (p : ℚ) / 100 := by
    unfold qAbs
    rw [if_neg (by linarith)]
  have hlo : (1 : ℚ) / 100 ≤ (p : ℚ) / 100 := by
    apply div_le_div_of_nonneg_right ?_ (by norm_num)
    exact_mod_cast hp1
  have hhi : (p : ℚ) / 100 ≤ 10000000 := by
    rw [div_le_iff₀ (by norm_num : (0 : ℚ) < 100)]
    norm_num
    exact_mod_cast hp2
  rw [if_pos ⟨by rw [habs]; exact hlo, by rw [habs]; exact hhi⟩]

/-- Witness for C9 at the spec's example: `₹1,64,148.10` round-trips to
164148.10 (= 16414810 paise). -/
theorem claim_C9_roundtrip_witness :
    formatAmountPaise 16414810 = "₹1,64,148.10".data ∧
    extract_amount "₹1,64,148.10".data = some (16414810 / 100 : ℚ) := by
  refine ⟨by decide, ?_⟩
  have h := claim_C9_roundtrip 16414810 (by decide) (by decide)
  rw [show formatAmountPaise 16414810 = "₹1,64,148.10".data from by decide]
    at h
  simpa using h

theorem orElse_none_right {α : Type} (x : Option α) : (x <|> none) = x := by
  cases x <;> rfl

theorem dChar_classes (v : ℕ) (h : v ≤ 9) :
    isDigitC (dChar v) = true ∧ isAlphaC (dChar v) = false ∧
    isSpaceC (dChar v) = false ∧ lowerC (dChar v) = dChar v ∧
    dChar v ≠ '-' ∧ dChar v ≠ '/' ∧ dChar v ≠ '.' ∧ dChar v ≠ ',' ∧
    dChar v ≠ ' ' := by
  interval_cases v <;> decide

theorem dChar_eq_c (v w : ℕ) (hv : v ≤ 9) (hw : w ≤ 9) :
    (dChar v = dChar w) ↔ v = w := by
  interval_cases v <;> interval_cases w <;> decide

theorem matchD_two {R : Type} (k : ℕ → Str → Option R) (u v : ℕ) (r : Str)
    (hu : u ≤ 3) (hv : v ≤ 9) (h1 : 1 ≤ 10 * u + v)
    (h31 : 10 * u + v ≤ 31) :
    matchD k (dChar u :: dChar v :: r) =
      (k (10 * u + v) r <|>
        (if u ≠ 0 then k u (dChar v :: r) else none)) := by
  have hdig := (dChar_classes v hv).1
  interval_cases u
  · have hvne : v ≠ 0 := by omega
    simp only [matchD, show dChar 0 = '0' from rfl]
    simp [hdig, digitVal_dChar v hv, hvne, orElse_none_right]
    intro hcon
    exact absurd ((dChar_eq_c v 0 hv (by norm_num)).mp hcon) hvne
  · simp only [matchD, show dChar 1 = '1' from rfl]
    simp [hdig, digitVal_dChar v hv, orElse_none_right,
      show digitVal '1' = 1 from by decide,
      show isDigitC '1' = true from by decide]
  · simp only [matchD, show dChar 2 = '2' from rfl]
    simp [hdig, digitVal_dChar v hv, orElse_none_right,
      show digitVal '2' = 2 from by decide,
      show isDigitC '2' = true from by decide]
  · have hv01 : v = 0 ∨ v = 1 := by omega
    rcases hv01 with rfl | rfl <;>
      simp [matchD, show dChar 3 = '3' from rfl, show dChar 0 = '0' from rfl,
        show dChar 1 = '1' from rfl, orElse_none_right,
        show digitVal '0' = 0 from by decide,
        show digitVal '1' = 1 from by decide,
        show digitVal '3' = 3 from by decide,
        show isDigitC '3' = true from by decide]

theorem matchM_two {R : Type} (k : ℕ → Str → Option R) (u v : ℕ) (r : Str)
    (hu : u ≤ 1) (hv : v ≤ 9) (h1 : 1 ≤ 10 * u + v)
    (h12 : 10 * u + v ≤ 12) :
    matchM k (dChar u :: dChar v :: r) =
      (k (10 * u + v) r <|>
        (if u ≠ 0 then k u (dChar v :: r) else none)) := by
  have hdig := (dChar_classes v hv).1
  interval_cases u
  · have hvne : v ≠ 0 := by omega
    simp only [matchM, show dChar 0 = '0' from rfl]
    simp [hdig, digitVal_dChar v hv, hvne, orElse_none_right]
    intro hcon
    exact absurd ((dChar_eq_c v 0 hv (by norm_num)).mp hcon) hvne
  · have hvle : v ≤ 2 := by omega
    have hv3 : v = 0 ∨ v = 1 ∨ v = 2 := by omega
    rcases hv3 with rfl | rfl | rfl <;>
      simp [matchM, show dChar 1 = '1' from rfl, show dChar 0 = '0' from rfl,
        show dChar 2 = '2' from rfl, orElse_none_right,
        show digitVal '0' = 0 from by decide,
        show digitVal '1' = 1 from by decide,
        show digitVal '2' = 2 from by decide,
        show isDigitC '1' = true from by decide]

/-- Four-digit year rendering. -/
def render4 (n : ℕ) : Str :=
  [dChar (n / 1000), dChar (n / 100 % 10), dChar (n / 10 % 10),
   dChar (n % 10)]

theorem matchY4_render {R : Type} (k : ℕ → Str → Option R) (y : ℕ) (r : Str)
    (hy : y ≤ 9999) :
    matchY4 k (render4 y ++ r) = k y r := by
  unfold render4 matchY4
  have h1 : y / 1000 ≤ 9 := by omega
  have h2 : y / 100 % 10 ≤ 9 := by omega
  have h3 : y / 10 % 10 ≤ 9 := by omega
  have h4 : y % 10 ≤ 9 := by omega
  simp [(dChar_classes _ h1).1, (dChar_classes _ h2).1,
    (dChar_classes _ h3).1, (dChar_classes _ h4).1, digitsToNat,
    digitVal_dChar _ h1, digitVal_dChar _ h2, digitVal_dChar _ h3,
    digitVal_dChar _ h4]
  congr 1
  omega

theorem pPlus_fail {R : Type} (p : Char → Bool) (k : Str → Option R)
    (c : Char) (r : Str) (h : p c = false) :
    pPlusCls p k (c :: r) = none := by
  simp [pPlusCls, pCls, h]

theorem pChar_fail {R : Type} (ch : Char) (k : Str → Option R)
    (c : Char) (r : Str) (h : c ≠ ch) :
    pChar ch k (c :: r) = none := by
  simp [pChar, h]

theorem pChar_cons {R : Type} (ch : Char) (k : Str → Option R) (r : Str) :
    pChar ch k (ch :: r) = k r := by
  simp [pChar]

/-- Lower-casing a non-letter is the identity. -/
theorem lowerC_not_alpha (c : Char) (h : isAlphaC c = false) :
    lowerC c = c := by
  unfold lowerC
  rw [if_neg]
  intro hup
  unfold isAlphaC at h
  rw [Bool.or_eq_false_iff] at h
  exact absurd hup (by simpa using h.1)

/-- A case-insensitive month-name prefix never matches at a non-letter. -/
theorem prefixCI_false_head (x : Char) (t : Str) (hx : isAlphaC x = true)
    ( _hlx : lowerC x = x) (c : Char) (r : Str) (hc : isAlphaC c = false) :
    prefixCI (x :: t) (c :: r) = false := by
  unfold prefixCI
  rw [Bool.and_eq_false_iff]
  right
  rw [decide_eq_false_iff_not]
  intro heq
  rw [List.length_cons, List.take_succ_cons] at heq
  unfold toLowerStr at heq
  rw [List.map_cons] at heq
  have hcx : lowerC c = x := (List.cons_eq_cons.mp heq).1
  rw [lowerC_not_alpha c hc] at hcx
  rw [hcx] at hc
  exact absurd hx (by simp [hc])

theorem monName_fail {R : Type} (tbl : List (ℕ × Str))
    (k : ℕ → Str → Option R) (s : Str)
    (htbl : ∀ pr ∈ tbl, prefixCI pr.2 s = false) :
    matchMonName tbl k s = none := by
  induction tbl with
  | nil => rfl
  | cons pr rest ih =>
    unfold matchMonName
    rw [List.foldr_cons]
    rw [htbl pr (by simp)]
    simp only [Bool.false_eq_true, if_false]
    rw [show (matchMonName rest k s : Option R) =
      rest.foldr (fun pr acc =>
        (if prefixCI pr.2 s then k pr.1 (s.drop pr.2.length) else none)
          <|> acc) none from rfl] at ih
    simp [ih (fun q hq => htbl q (by simp [hq]))]

/-- Every month abbreviation starts with a lower-case letter, so `%b` fails
on a string that does not start with a letter. -/
theorem monAbbrev_fail {R : Type} (k : ℕ → Str → Option R) (c : Char)
    (r : Str) (hc : isAlphaC c = false) :
    matchMonName monthAbbrevs k (c :: r) = none := by
  apply monName_fail
  intro pr hpr
  fin_cases hpr <;>
    exact prefixCI_false_head _ _ (by decide) (by decide) c r hc

/-- Every month name starts with a lower-case letter, so `%B` fails on a
string that does not start with a letter. -/
theorem monFull_fail {R : Type} (k : ℕ → Str → Option R) (c : Char)
    (r : Str) (hc : isAlphaC c = false) :
    matchMonName monthFulls k (c :: r) = none := by
  apply monName_fail
  intro pr hpr
  fin_cases hpr <;>
    exact prefixCI_false_head _ _ (by decide) (by decide) c r hc

/-- Claim-side renderer for C8 (follows the spec's example strings): day and
month zero-padded to two digits, four-digit year, separated by `sep`. -/
def renderDMY (sep : Char) (d m y : ℕ) : Str :=
  render2 d ++ sep :: (render2 m ++ sep :: render4 y)

theorem daysInMonth_le (y m : ℕ) : daysInMonth y m ≤ 31 := by
  unfold daysInMonth
  split
  · split <;> norm_num
  · split <;> norm_num

theorem dropWhile_false (p : Char → Bool) (s : Str)
    (h : ∀ c ∈ s, p c = false) : s.dropWhile p = s := by
  cases s with
  | nil => rfl
  | cons c t => simp [List.dropWhile_cons, h c (by simp)]

/-- `str.strip()` is the identity on a string with no whitespace. -/
theorem stripWs_id (s : Str) (h : ∀ c ∈ s, isSpaceC c = false) :
    stripWs s = s := by
  unfold stripWs
  rw [dropWhile_false _ _ h]
  rw [dropWhile_false _ _ (fun c hc => h c (by simpa using hc))]
  exact List.reverse_reverse s

theorem dChar_not_space (v : ℕ) (h : v ≤ 9) : isSpaceC (dChar v) = false :=
  (dChar_classes v h).2.2.1

theorem dChar_not_alpha (v : ℕ) (h : v ≤ 9) : isAlphaC (dChar v) = false :=
  (dChar_classes v h).2.1

theorem renderDMY_no_space (sep : Char) (d m y : ℕ)
    (hsep : isSpaceC sep = false) (hd : d ≤ 99) (hm : m ≤ 99)
    (hy : y ≤ 9999) :
    ∀ c ∈ renderDMY sep d m y, isSpaceC c = false := by
  intro c hc
  simp only [renderDMY, render2, render4, List.cons_append, List.nil_append,
    List.mem_cons, List.not_mem_nil, or_false] at hc
  rcases hc with rfl | rfl | rfl | rfl | rfl | rfl | rfl | rfl | rfl | rfl
  · exact dChar_not_space _ (by omega)
  · exact dChar_not_space _ (by omega)
  · exact hsep
  · exact dChar_not_space _ (by omega)
  · exact dChar_not_space _ (by omega)
  · exact hsep
  · exact dChar_not_space _ (by omega)
  · exact dChar_not_space _ (by omega)
  · exact dChar_not_space _ (by omega)
  · exact dChar_not_space _ (by omega)

/-- A counted class repetition with a positive minimum fails when the first
character is not in the class. -/
theorem pCnt_pos_fail {R : Type} (p : Char → Bool) (lo hi : ℕ)
    (k : Str → Option R) (c : Char) (r : Str) (hlo : lo ≠ 0)
    (h : p c = false) : pCntCls p lo hi k (c :: r) = none := by
  cases hi with
  | zero => rw [pCntCls_zero, if_neg hlo]
  | succ n =>
    rw [pCntCls_succ]
    simp [h, hlo]

theorem pCnt12_two_fail {R : Type} (k : Str → Option R) (u v : ℕ)
    (hu : u ≤ 9) (hv : v ≤ 9) (c : Char) (r : Str)
    (h1 : k (c :: r) = none) (h2 : k (dChar v :: c :: r) = none) :
    pCntCls isDigitC 1 2 k (dChar u :: dChar v :: c :: r) = none := by
  rw [show (2 : ℕ) = 1 + 1 from rfl, pCntCls_succ]
  simp only [(dChar_classes u hu).1, if_true]
  rw [show (1 : ℕ) - 1 = 0 + 0 from rfl]
  rw [show (1 : ℕ) = 0 + 1 from rfl, pCntCls_succ]
  simp [(dChar_classes v hv).1, h1, h2, pCntCls_zero]

/-- The GPay compact pattern fails on two digits followed by a non-letter:
the greedy `\d{1,2}` backtracks but `[A-Za-z]{3}` then still faces either
the non-letter or the second digit. -/
theorem gpayMatch_sep_fail (u v : ℕ) (hu : u ≤ 9) (hv : v ≤ 9)
    (c : Char) (r : Str) (hc : isAlphaC c = false) :
    gpayMatch (dChar u :: dChar v :: c :: r) = none := by
  unfold gpayMatch
  rw [pCnt12_two_fail]
  · exact hu
  · exact hv
  · exact pCnt_pos_fail _ _ _ _ _ _ (by norm_num) hc
  · exact pCnt_pos_fail _ _ _ _ _ _ (by norm_num) (dChar_not_alpha v hv)

theorem runFmt_nil (a : DMY) (s : Str) : runFmt [] a s = some (a, s) := rfl

theorem runFmt_D (ts : List FTok) (a : DMY) (s : Str) :
    runFmt (FTok.D :: ts) a s =
      matchD (fun d => runFmt ts { a with day := some d }) s := rfl

theorem runFmt_M (ts : List FTok) (a : DMY) (s : Str) :
    runFmt (FTok.M :: ts) a s =
      matchM (fun m => runFmt ts { a with month := some m }) s := rfl

theorem runFmt_Y4 (ts : List FTok) (a : DMY) (s : Str) :
    runFmt (FTok.Y4 :: ts) a s =
      matchY4 (fun y => runFmt ts { a with year := some y }) s := rfl

theorem runFmt_lit (c : Char) (ts : List FTok) (a : DMY) (s : Str) :
    runFmt (FTok.lit c :: ts) a s = pChar c (runFmt ts a) s := rfl

theorem runFmt_wsTok (ts : List FTok) (a : DMY) (s : Str) :
    runFmt (FTok.ws :: ts) a s = pPlusCls isSpaceC (runFmt ts a) s := rfl

theorem runFmt_bmon (ts : List FTok) (a : DMY) (s : Str) :
    runFmt (FTok.Bmon :: ts) a s =
      matchMonName monthAbbrevs
        (fun m => runFmt ts { a with month := some m }) s := rfl

theorem runFmt_wsTok_fail (ts : List FTok) (a : DMY) (c : Char) (r : Str)
    (h : isSpaceC c = false) : runFmt (FTok.ws :: ts) a (c :: r) = none := by
  rw [runFmt_wsTok]
  exact pPlus_fail _ _ _ _ h

theorem runFmt_bmon_fail (ts : List FTok) (a : DMY) (c : Char) (r : Str)
    (h : isAlphaC c = false) : runFmt (FTok.Bmon :: ts) a (c :: r) = none := by
  rw [runFmt_bmon]
  exact monAbbrev_fail _ _ _ h

theorem runFmt_lit_fail (ch : Char) (ts : List FTok) (a : DMY) (c : Char)
    (r : Str) (h : c ≠ ch) :
    runFmt (FTok.lit ch :: ts) a (c :: r) = none := by
  rw [runFmt_lit]
  exact pChar_fail _ _ _ _ h

/-- A format starting with `%d` fails on a two-digit day when the rest of
the format fails both after consuming the two digits and after the
one-digit backtrack. -/
theorem runFmtD_fail (ts : List FTok) (a : DMY) (u v : ℕ) (c : Char)
    (r : Str) (hu : u ≤ 3) (hv : v ≤ 9) (h1 : 1 ≤ 10 * u + v)
    (h31 : 10 * u + v ≤ 31)
    (hf1 : ∀ a' : DMY, runFmt ts a' (c :: r) = none)
    (hf2 : ∀ a' : DMY, runFmt ts a' (dChar v :: c :: r) = none) :
    runFmt (FTok.D :: ts) a (dChar u :: dChar v :: c :: r) = none := by
  rw [runFmt_D, matchD_two _ u v _ hu hv h1 h31]
  rw [hf1, hf2]
  simp

theorem strptimeFmt_none (toks : List FTok) (s : Str)
    (h : runFmt toks {} s = none) : strptimeFmt toks s = none := by
  unfold strptimeFmt
  rw [h]

/-- The day-first format with separator `sep` matches the rendered string
exactly, binding day, month and year. -/
theorem runFmt_dmy (sep : Char) (d m y : ℕ) (hd1 : 1 ≤ d) (hd31 : d ≤ 31)
    (hm1 : 1 ≤ m) (hm12 : m ≤ 12) (hy : y ≤ 9999) :
    runFmt [FTok.D, FTok.lit sep, FTok.M, FTok.lit sep, FTok.Y4] {}
      (renderDMY sep d m y) = some (⟨some d, some m, some y⟩, []) := by
  have hS : renderDMY sep d m y =
      dChar (d / 10) :: dChar (d % 10) :: sep ::
        (render2 m ++ sep :: render4 y) := by
    simp [renderDMY, render2]
  rw [hS, runFmt_D,
    matchD_two _ (d / 10) (d % 10) _ (by omega) (by omega) (by omega)
      (by omega)]
  have hd' : 10 * (d / 10) + d % 10 = d := by omega
  rw [hd']
  have hprim : runFmt [FTok.lit sep, FTok.M, FTok.lit sep, FTok.Y4]
      ⟨some d, none, none⟩ (sep :: (render2 m ++ sep :: render4 y)) =
      some (⟨some d, some m, some y⟩, []) := by
    rw [runFmt_lit, pChar_cons]
    have hM : render2 m ++ sep :: render4 y =
        dChar (m / 10) :: dChar (m % 10) :: sep :: render4 y := by
      simp [render2]
    rw [hM, runFmt_M,
      matchM_two _ (m / 10) (m % 10) _ (by omega) (by omega) (by omega)
        (by omega)]
    have hm' : 10 * (m / 10) + m % 10 = m := by omega
    rw [hm']
    have hprim2 : runFmt [FTok.lit sep, FTok.Y4] ⟨some d, some m, none⟩
        (sep :: render4 y) = some (⟨some d, some m, some y⟩, []) := by
      rw [runFmt_lit, pChar_cons, runFmt_Y4,
        show render4 y = render4 y ++ [] from (List.append_nil _).symm,
        matchY4_render _ y [] hy]
      rfl
    rw [hprim2, Option.some_orElse]
  rw [hprim, Option.some_orElse]

/-- `strptime` with the day-first format and separator `sep` parses the
rendered string to the encoded calendar date. -/
theorem strptimeFmt_dmy (sep : Char) (d m y : ℕ) (hd1 : 1 ≤ d)
    (hd2 : d ≤ daysInMonth y m) (hm1 : 1 ≤ m) (hm12 : m ≤ 12)
    (hy1 : 1 ≤ y) (hy2 : y ≤ 9999) :
    strptimeFmt [FTok.D, FTok.lit sep, FTok.M, FTok.lit sep, FTok.Y4]
      (renderDMY sep d m y) = some ⟨y, m, d⟩ := by
  have hd31 : d ≤ 31 := le_trans hd2 (daysInMonth_le y m)
  unfold strptimeFmt
  rw [runFmt_dmy sep d m y hd1 hd31 hm1 hm12 hy2]
  dsimp only
  unfold mkDatetime
  rw [if_pos]
  exact ⟨hy1, hy2, hm1, hm12, hd1, hd2⟩

theorem parse_date_opt_eq (s0 : Str) : parse_date_opt s0 =
    (match gpayParseDate (stripWs s0) with
     | some d => some d
     | none =>
       match tryFormats (stripWs s0) with
       | some d => some d
       | none => flexFallback (stripWs s0)) := rfl

theorem dChar_ne_dash (v : ℕ) (h : v ≤ 9) : dChar v ≠ '-' :=
  (dChar_classes v h).2.2.2.2.1

theorem dChar_ne_slash (v : ℕ) (h : v ≤ 9) : dChar v ≠ '/' :=
  (dChar_classes v h).2.2.2.2.2.1

/-- C8 (amended): across the three day-first numeric formats (separator
dash, slash or dot, two-digit day and month, four-digit year), `_parse_date`
returns the encoded calendar date, so the result is independent of which of
the three separators encodes it. -/
theorem claim_C8_amended (sep : Char) (d m y : ℕ)
    (hsep : sep = '-' ∨ sep = '/' ∨ sep = '.')
    (hd1 : 1 ≤ d) (hd2 : d ≤ daysInMonth y m) (hm1 : 1 ≤ m) (hm2 : m ≤ 12)
    (hy1 : 1 ≤ y) (hy2 : y ≤ 9999) :
    parse_date_opt (renderDMY sep d m y) = some ⟨y, m, d⟩ := by
  have hd31 : d ≤ 31 := le_trans hd2 (daysInMonth_le y m)
  have hsepNS : isSpaceC sep = false := by
    rcases hsep with rfl | rfl | rfl <;> decide
  have hsepNA : isAlphaC sep = false := by
    rcases hsep with rfl | rfl | rfl <;> decide
  have hS : renderDMY sep d m y =
      dChar (d / 10) :: dChar (d % 10) :: sep ::
        (render2 m ++ sep :: render4 y) := by
    simp [renderDMY, render2]
  have hstrip : stripWs (renderDMY sep d m y) = renderDMY sep d m y :=
    stripWs_id _
      (renderDMY_no_space sep d m y hsepNS (by omega) (by omega) (by omega))
  have hgpay : gpayParseDate (renderDMY sep d m y) = none := by
    unfold gpayParseDate
    rw [hS, gpayMatch_sep_fail (d / 10) (d % 10) (by omega) (by omega) sep _
      hsepNA]
  have hfail0 : strptimeFmt
      [FTok.D, FTok.ws, FTok.Bmon, FTok.lit ',', FTok.ws, FTok.Y4]
      (renderDMY sep d m y) = none := by
    apply strptimeFmt_none
    rw [hS]
    apply runFmtD_fail _ _ _ _ _ _ (by omega) (by omega) (by omega) (by omega)
    · intro a'
      exact runFmt_wsTok_fail _ _ _ _ hsepNS
    · intro a'
      exact runFmt_wsTok_fail _ _ _ _ (dChar_not_space _ (by omega))
  have hfail1 : strptimeFmt [FTok.D, FTok.Bmon, FTok.ws, FTok.Y4]
      (renderDMY sep d m y) = none := by
    apply strptimeFmt_none
    rw [hS]
    apply runFmtD_fail _ _ _ _ _ _ (by omega) (by omega) (by omega) (by omega)
    · intro a'
      exact runFmt_bmon_fail _ _ _ _ hsepNA
    · intro a'
      exact runFmt_bmon_fail _ _ _ _ (dChar_not_alpha _ (by omega))
  have hfail2 : strptimeFmt [FTok.D, FTok.ws, FTok.Bmon, FTok.ws, FTok.Y4]
      (renderDMY sep d m y) = none := by
    apply strptimeFmt_none
    rw [hS]
    apply runFmtD_fail _ _ _ _ _ _ (by omega) (by omega) (by omega) (by omega)
    · intro a'
      exact runFmt_wsTok_fail _ _ _ _ hsepNS
    · intro a'
      exact runFmt_wsTok_fail _ _ _ _ (dChar_not_space _ (by omega))
  have hsucc : strptimeFmt
      [FTok.D, FTok.lit sep, FTok.M, FTok.lit sep, FTok.Y4]
      (renderDMY sep d m y) = some ⟨y, m, d⟩ :=
    strptimeFmt_dmy sep d m y hd1 hd2 hm1 hm2 hy1 hy2
  have htry : tryFormats (renderDMY sep d m y) = some ⟨y, m, d⟩ := by
    rcases hsep with rfl | rfl | rfl
    · unfold tryFormats pyFormats
      simp only [List.findSome?_cons_of_isNone, List.findSome?_cons_of_isSome,
        hfail0, hfail1, hfail2, hsucc, Option.isNone_none, Option.isSome_some]
    · have hf3 : strptimeFmt
          [FTok.D, FTok.lit '-', FTok.M, FTok.lit '-', FTok.Y4]
          (renderDMY '/' d m y) = none := by
        apply strptimeFmt_none
        rw [hS]
        apply runFmtD_fail _ _ _ _ _ _ (by omega) (by omega) (by omega)
          (by omega)
        · intro a'
          exact runFmt_lit_fail _ _ _ _ _ (by decide)
        · intro a'
          exact runFmt_lit_fail _ _ _ _ _ (dChar_ne_dash _ (by omega))
      unfold tryFormats pyFormats
      simp only [List.findSome?_cons_of_isNone, List.findSome?_cons_of_isSome,
        hfail0, hfail1, hfail2, hf3, hsucc, Option.isNone_none,
        Option.isSome_some]
    · have hf3 : strptimeFmt
          [FTok.D, FTok.lit '-', FTok.M, FTok.lit '-', FTok.Y4]
          (renderDMY '.' d m y) = none := by
        apply strptimeFmt_none
        rw [hS]
        apply runFmtD_fail _ _ _ _ _ _ (by omega) (by omega) (by omega)
          (by omega)
        · intro a'
          exact runFmt_lit_fail _ _ _ _ _ (by decide)
        · intro a'
          exact runFmt_lit_fail _ _ _ _ _ (dChar_ne_dash _ (by omega))
      have hf4 : strptimeFmt
          [FTok.D, FTok.lit '/', FTok.M, FTok.lit '/', FTok.Y4]
          (renderDMY '.' d m y) = none := by
        apply strptimeFmt_none
        rw [hS]
        apply runFmtD_fail _ _ _ _ _ _ (by omega) (by omega) (by omega)
          (by omega)
        · intro a'
          exact runFmt_lit_fail _ _ _ _ _ (by decide)
        · intro a'
          exact runFmt_lit_fail _ _ _ _ _ (dChar_ne_slash _ (by omega))
      unfold tryFormats pyFormats
      simp only [List.findSome?_cons_of_isNone, List.findSome?_cons_of_isSome,
        hfail0, hfail1, hfail2, hf3, hf4, hsucc, Option.isNone_none,
        Option.isSome_some]
  rw [parse_date_opt_eq, hstrip, hgpay, htry]

/-- C8 counterexample: format-invariance fails across all supported
formats.  January 10, 2025 is encoded by the supported day-first format as
"10-01-2025" and by the supported month-first format as "01-10-2025", yet
the first parses to January 10, 2025 and the second to October 1, 2025
(the day-first format is tried earlier and claims the month-first string),
so the normalizer is not format-invariant. -/
theorem claim_C8_counterexample :
    parse_date_opt ("10-01-2025".data) = some ⟨2025, 1, 10⟩ ∧
    parse_date_opt ("01-10-2025".data) = some ⟨2025, 10, 1⟩ ∧
    parse_date_opt ("10-01-2025".data) ≠ parse_date_opt ("01-10-2025".data)
    := by
  refine ⟨by decide, by decide, by decide⟩

theorem claim_C8_amended_witness :
    parse_date_opt (renderDMY '-' 25 12 2024) = some ⟨2024, 12, 25⟩ ∧
    parse_date_opt (renderDMY '/' 25 12 2024) = some ⟨2024, 12, 25⟩ ∧
    parse_date_opt (renderDMY '.' 25 12 2024) = some ⟨2024, 12, 25⟩ :=
  ⟨claim_C8_amended '-' 25 12 2024 (by decide) (by decide) (by decide)
      (by decide) (by decide) (by decide) (by decide),
   claim_C8_amended '/' 25 12 2024 (by decide) (by decide) (by decide)
      (by decide) (by decide) (by decide) (by decide),
   claim_C8_amended '.' 25 12 2024 (by decide) (by decide) (by decide)
      (by decide) (by decide) (by decide) (by decide)⟩

end SpendingAnalyzer
